import Mathlib

/-!
Verification of the succinct bitvector core (`bitvector.h`, `bitvector.cpp`).

Modeling conventions for the shallow embedding:

* C++ `uint64` values are modeled as `Nat`.  Unsigned subtraction is modeled
  as truncated `Nat` subtraction; the theorems below establish the
  no-underflow bounds wherever the source relies on non-wrapping values.
  Where wraparound is semantically load-bearing it is made explicit:
  the `uint8_t bitIndex = 0 - (remaining > 0)` trick in the select word
  scans is modeled with explicit `% 256` arithmetic, the metadata shift
  `L0BlockOneCounter << 20` carries an explicit `% 2 ^ 64`, and the
  `uint32_t` select-cache entries carry `% 2 ^ 32`.  Additive counters
  (`oneCount`, `zeroCount`, positions) are modeled as unbounded naturals;
  they stay below `2 ^ 64` for every character string representable in the
  source language.
* `std::vector` is a `List Nat`; `operator[]` reads are `List.getD _ _ 0`
  (all reads performed by the queries under the preconditions proved below
  are in bounds) and `operator[]` writes are `List.set`.
* `std::string` is a `List Nat` of character codes (`48` is the code of the
  character zero, `49` of the character one).
* `std::popcount` is `popcount` below, `__builtin_clzll w` (source always
  calls it with `w != 0`) is `clz64`, and `~w` on `uint64` is `compl64`.
* The `while (remaining > 0)` bit scan of the select queries is modeled by
  `selectBitLoop`; when `bitword = 0` and `remaining > 0` the C++ loop does
  not terminate, and the model returns the current index (the guarded call
  sites only reach the loop with `remaining ≤ popcount bitword`, so this
  branch is unreachable there).
-/

/-- Bit `i` of a natural number, as a natural number. -/
def bitOf (x i : Nat) : Nat := x / 2 ^ i % 2

/-- Number of 1 bits among the first `n` bits of a word. -/
def wordOnes (w : Nat) : Nat → Nat
  | 0 => 0
  | k + 1 => wordOnes w k + bitOf w k

/-- `std::popcount` on `uint64`: the number of 1 bits among the 64 bits of
the word (every word this development applies it to is below `2 ^ 64`). -/
def popcount (n : Nat) : Nat := wordOnes n 64

/-- Index of the highest set bit among the low 64 bits (0 when none). -/
def highestBitAux (w : Nat) : Nat → Nat
  | 0 => 0
  | k + 1 => if bitOf w k = 1 then k else highestBitAux w k

/-- Index of the highest set bit of a 64-bit word (0 when the word is 0). -/
def highestBit (w : Nat) : Nat := highestBitAux w 64

/-- Count of leading zeros of a nonzero 64-bit word (`__builtin_clzll`; the
source only applies it to nonzero words). -/
def clz64 (w : Nat) : Nat := 63 - highestBit w

/-- Bitwise complement on 64-bit words (`~w` on `uint64`). -/
def compl64 (w : Nat) : Nat := w ^^^ (2 ^ 64 - 1)

/-- `#define EVERY_OTHER_1_POS 8192` (select-cache distance). -/
def EVERY_OTHER_1_POS : Nat := 8192

/-- `#define BLOCK_SIZE 512` (block size in bits). -/
def BLOCK_SIZE : Nat := 512

/-- `#define L0BLOCK_SIZE 0xFFFFFFFFFFF` (eleven F nibbles, so 44 one bits). -/
def L0BLOCK_SIZE : Nat := 0xFFFFFFFFFFF

/-- `#define SUPERBLOCKS_PER_L0 0x7FFFFFFF` from `buildHelpers`. -/
def SUPERBLOCKS_PER_L0 : Nat := 0x7FFFFFFF

/-- The `bitvector` class state: the word array plus all helper structures. -/
structure bitvector where
  vector : List Nat
  superBlocks : List Nat
  selectCache_0 : List Nat
  selectCache_1 : List Nat
  L0SingleBlockData : Nat
  oneCount : Nat
  zeroCount : Nat
  lastOnePos : Nat
  lastZeroPos : Nat
deriving DecidableEq

/-- The mutable locals of the constructor loop. -/
structure MkState where
  innerIndex : Nat
  outerIndex : Nat
  currentConstruction : Nat
  vec : List Nat
deriving DecidableEq

/-- One iteration of the constructor loop over the characters of the input. -/
def mkStep (st : MkState) (c : Nat) : MkState :=
  if 49 < c ∨ c < 48 then st
  else
    let cur := st.currentConstruction ||| ((c - 48) <<< st.innerIndex)
    let inner := st.innerIndex + 1
    if 64 ≤ inner then
      { innerIndex := 0, outerIndex := st.outerIndex + 1,
        currentConstruction := 0, vec := st.vec.set st.outerIndex cur }
    else
      { st with innerIndex := inner, currentConstruction := cur }

/-- The constructor `bitvector::bitvector(std::string&)`: reads the 0/1
characters of the string into the packed word array and zero-initializes
every helper field. -/
def mkBitvector (s : List Nat) : bitvector :=
  let st := s.foldl mkStep
    { innerIndex := 0, outerIndex := 0, currentConstruction := 0,
      vec := List.replicate ((s.length >>> 6) + 1) 0 }
  { vector := st.vec.set st.outerIndex st.currentConstruction,
    superBlocks := [], selectCache_0 := [], selectCache_1 := [],
    L0SingleBlockData := 0, oneCount := 0, zeroCount := 0,
    lastOnePos := 0, lastZeroPos := 0 }

/-- `bitvector::access`. -/
def access (bv : bitvector) (ptr : Nat) : Nat :=
  (bv.vector.getD (ptr >>> 6) 0 >>> (ptr &&& ((1 <<< 6) - 1))) &&& 1

/-- `bitvector::rank_1`: the internal 1-rank of a position, combining the
superblock metadata with up to eight popcounts. -/
def rank_1 (bv : bitvector) (ptr : Nat) : Nat :=
  let superblockIndex := (ptr >>> 12) <<< 1
  let metadata1 := bv.superBlocks.getD superblockIndex 0
  let metadata2 := bv.superBlocks.getD (superblockIndex + 1) 0
  let blockId := (ptr >>> 9) &&& 7
  let preOnesCount :=
    (metadata1 >>> 20) + (if L0BLOCK_SIZE < ptr then bv.L0SingleBlockData else 0)
  let preOnesCount :=
    if blockId = 1 then preOnesCount + ((metadata1 >>> 8) &&& 0xFFF)
    else if blockId = 2 then
      preOnesCount + (((metadata1 &&& 0xFF) <<< 4) ||| (metadata2 >>> 60))
    else if 2 < blockId then
      preOnesCount + ((metadata2 >>> ((blockId - 3) * 12)) &&& 0xFFF)
    else preOnesCount
  let beginBlockIndex := (ptr >>> 9) <<< 3
  let which64BitWord := (ptr >>> 6) &&& 0x7
  let blockSum := (List.range which64BitWord).foldl
    (fun acc k => acc + popcount (bv.vector.getD (beginBlockIndex + k) 0)) 0
  let wordCoverageMask := (1 <<< (ptr &&& 0x3F)) - 1
  preOnesCount + (blockSum +
    popcount (bv.vector.getD (beginBlockIndex + which64BitWord) 0 &&& wordCoverageMask))

/-- `bitvector::rank`: dispatch on the bit value, with the clamp of
out-of-range positions to the last position of the word array. -/
def rank (bv : bitvector) (ptr : Nat) (bitValue : Nat) : Nat :=
  if ptr = 0 then 0
  else
    let p := if (bv.vector.length <<< 6) - 1 < ptr then (bv.vector.length <<< 6) - 1 else ptr
    if bitValue = 1 then rank_1 bv p else p - rank_1 bv p

/-- `bitvector::superRank`: the coarse cumulative 1-count used by the select
binary searches; `ptr` is a superblock number. -/
def superRank (bv : bitvector) (ptr : Nat) : Nat :=
  (if L0BLOCK_SIZE < ptr then bv.L0SingleBlockData else 0) +
    (bv.superBlocks.getD (ptr <<< 1) 0 >>> 20)

/-- `bitvector::select_1_iterative`: binary search for the first superblock
number whose cumulative 1-count reaches `num`, returning its predecessor. -/
def select_1_iterative (bv : bitvector) (num start stop : Nat) : Nat :=
  if start < stop then
    let middle := (start + stop) >>> 1
    if superRank bv middle < num then select_1_iterative bv num (middle + 1) stop
    else select_1_iterative bv num start middle
  else start - 1
termination_by stop - start
decreasing_by
  all_goals simp only [Nat.shiftRight_eq_div_pow, pow_one] at *
  all_goals omega

/-- `bitvector::select_0_iterative`: the 0-side binary search. -/
def select_0_iterative (bv : bitvector) (num start stop : Nat) : Nat :=
  if start < stop then
    let middle := (start + stop) >>> 1
    if (middle <<< 12) - superRank bv middle < num then
      select_0_iterative bv num (middle + 1) stop
    else select_0_iterative bv num start middle
  else start - 1
termination_by stop - start
decreasing_by
  all_goals simp only [Nat.shiftRight_eq_div_pow, pow_one] at *
  all_goals omega

/-- The initial value of the `uint8_t bitIndex = 0 - (remaining > 0)` local
of the select word scans (255 on underflow). -/
def bitIndexInit (remaining : Nat) : Nat :=
  (256 - (if 0 < remaining then 1 else 0)) % 256

/-- The `while (remaining > 0)` scan locating a bit inside a 64-bit word.
The first argument is an iteration budget: the call sites below reach this
loop only with `remaining ≤ popcount bitword` and a word below `2 ^ 64`,
where the C++ loop runs at most 64 iterations, so the budget 64 used there
is never exhausted and the recursion matches the source loop exactly. -/
def selectBitLoop : Nat → Nat → Nat → Nat → Nat
  | 0, _, _, bitIndex => bitIndex
  | fuel + 1, bitword, remaining, bitIndex =>
    if 0 < remaining then
      selectBitLoop fuel (bitword >>> 1) (remaining - (bitword &&& 1)) ((bitIndex + 1) % 256)
    else bitIndex

/-- The block-location chain of `select_1` (the do-while(false) block):
returns the block index and the updated `remaining`. -/
def select1Block (metadata1 metadata2 remaining : Nat) : Nat × Nat :=
  let c1 := (metadata1 >>> 8) &&& 0xFFF
  if remaining ≤ c1 then (0, remaining - 0)
  else
    let c2 := ((metadata1 &&& 0xFF) <<< 4) ||| (metadata2 >>> 60)
    if remaining ≤ c2 then (1, remaining - c1)
    else
      let c3 := metadata2 &&& 0xFFF
      if remaining ≤ c3 then (2, remaining - c2)
      else
        let c4 := (metadata2 >>> 12) &&& 0xFFF
        if remaining ≤ c4 then (3, remaining - c3)
        else
          let c5 := (metadata2 >>> 24) &&& 0xFFF
          if remaining ≤ c5 then (4, remaining - c4)
          else
            let c6 := (metadata2 >>> 36) &&& 0xFFF
            if remaining ≤ c6 then (5, remaining - c5)
            else
              let c7 := (metadata2 >>> 48) &&& 0xFFF
              if remaining ≤ c7 then (6, remaining - c6)
              else (7, remaining - c7)

/-- The block-location chain of `select_0`: each cumulative 1-count is
inverted against the bit total of the covered blocks before comparing. -/
def select0Block (metadata1 metadata2 remaining : Nat) : Nat × Nat :=
  let c1 := BLOCK_SIZE - ((metadata1 >>> 8) &&& 0xFFF)
  if remaining ≤ c1 then (0, remaining - 0)
  else
    let c2 := 2 * BLOCK_SIZE - (((metadata1 &&& 0xFF) <<< 4) ||| (metadata2 >>> 60))
    if remaining ≤ c2 then (1, remaining - c1)
    else
      let c3 := 3 * BLOCK_SIZE - (metadata2 &&& 0xFFF)
      if remaining ≤ c3 then (2, remaining - c2)
      else
        let c4 := 4 * BLOCK_SIZE - ((metadata2 >>> 12) &&& 0xFFF)
        if remaining ≤ c4 then (3, remaining - c3)
        else
          let c5 := 5 * BLOCK_SIZE - ((metadata2 >>> 24) &&& 0xFFF)
          if remaining ≤ c5 then (4, remaining - c4)
          else
            let c6 := 6 * BLOCK_SIZE - ((metadata2 >>> 36) &&& 0xFFF)
            if remaining ≤ c6 then (5, remaining - c5)
            else
              let c7 := 7 * BLOCK_SIZE - ((metadata2 >>> 48) &&& 0xFFF)
              if remaining ≤ c7 then (6, remaining - c6)
              else (7, remaining - c7)

/-- The word scan of `select_1` over the at most eight words of a block:
returns the contribution `(index << 6) + bitIndex` of the hit, or 0 when the
scan falls through.  The final argument is the remaining iteration count
`8 - index` of the `for` loop, made explicit so the recursion is structural;
the entry point passes `index = 0` and budget 8. -/
def select1Words (vec : List Nat) (wordIndex : Nat) : Nat → Nat → Nat → Nat
  | _, _, 0 => 0
  | remaining, index, fuel + 1 =>
    if index < 8 then
      let bitword := vec.getD (wordIndex + index) 0
      let onesInWord := popcount bitword
      if onesInWord < remaining then
        select1Words vec wordIndex (remaining - onesInWord) (index + 1) fuel
      else (index <<< 6) + selectBitLoop 64 bitword remaining (bitIndexInit remaining)
    else 0

/-- The word scan of `select_0`: as `select1Words` on complemented words. -/
def select0Words (vec : List Nat) (wordIndex : Nat) : Nat → Nat → Nat → Nat
  | _, _, 0 => 0
  | remaining, index, fuel + 1 =>
    if index < 8 then
      let bitword := compl64 (vec.getD (wordIndex + index) 0)
      let zerosInWord := popcount bitword
      if zerosInWord < remaining then
        select0Words vec wordIndex (remaining - zerosInWord) (index + 1) fuel
      else (index <<< 6) + selectBitLoop 64 bitword remaining (bitIndexInit remaining)
    else 0

/-- `bitvector::select_1`. -/
def select_1 (bv : bitvector) (num : Nat) : Nat :=
  if num = bv.oneCount then bv.lastOnePos
  else
    let sbLen := bv.superBlocks.length
    let superblockIndex :=
      if sbLen ≤ 2 ∨ num ≤ (bv.superBlocks.getD 2 0 >>> 20) then 0
      else if (bv.superBlocks.getD (sbLen - 2) 0 >>> 20) < num then sbLen - 2
      else
        let start0 := num >>> 13
        if bv.selectCache_1.length ≤ start0 + 1 then
          (select_1_iterative bv num start0 ((sbLen >>> 1) - 1)) <<< 1
        else
          let stop := bv.selectCache_1.getD start0 0 + 1
          let start := if start0 = 0 then 0 else bv.selectCache_1.getD (start0 - 1) 0 - 1
          (select_1_iterative bv num start stop) <<< 1
    let metadata1 := bv.superBlocks.getD superblockIndex 0
    let metadata2 := bv.superBlocks.getD (superblockIndex + 1) 0
    let remaining := num - (metadata1 >>> 20)
    let remaining :=
      if L0BLOCK_SIZE < (superblockIndex <<< 11) then remaining - bv.L0SingleBlockData
      else remaining
    let br := select1Block metadata1 metadata2 remaining
    let wordIndex := (superblockIndex <<< 5) + (br.1 <<< 3)
    (wordIndex <<< 6) + select1Words bv.vector wordIndex br.2 0 8

/-- `bitvector::select_0`. -/
def select_0 (bv : bitvector) (num : Nat) : Nat :=
  if num = bv.zeroCount then bv.lastZeroPos
  else
    let sbLen := bv.superBlocks.length
    let superblockIndex :=
      if sbLen ≤ 2 ∨ num ≤ (1 <<< 12) - (bv.superBlocks.getD 2 0 >>> 20) then 0
      else if ((sbLen - 2) <<< 11) - (bv.superBlocks.getD (sbLen - 2) 0 >>> 20) < num then
        sbLen - 2
      else
        let start0 := num >>> 13
        if bv.selectCache_0.length ≤ start0 then
          (select_0_iterative bv num start0 ((sbLen >>> 1) - 1)) <<< 1
        else
          let stop := bv.selectCache_0.getD start0 0 + 1
          let start := if start0 = 0 then 0 else bv.selectCache_0.getD (start0 - 1) 0 - 1
          (select_0_iterative bv num start stop) <<< 1
    let metadata1 := bv.superBlocks.getD superblockIndex 0
    let metadata2 := bv.superBlocks.getD (superblockIndex + 1) 0
    let remaining := num - ((superblockIndex <<< 11) - (metadata1 >>> 20))
    let remaining :=
      if L0BLOCK_SIZE < (superblockIndex <<< 11) then
        remaining - (L0BLOCK_SIZE - bv.L0SingleBlockData)
      else remaining
    let br := select0Block metadata1 metadata2 remaining
    let wordIndex := (superblockIndex <<< 5) + (br.1 <<< 3)
    (wordIndex <<< 6) + select0Words bv.vector wordIndex br.2 0 8

/-- `bitvector::select`: dispatch on the byte value. -/
def select (bv : bitvector) (i : Nat) (byteValue : Nat) : Nat :=
  if byteValue = 1 then select_1 bv i else select_0 bv i

/-- The mutable locals of the `buildHelpers` loop together with the
bitvector member fields it updates. -/
structure BState where
  wordIndex : Nat
  blockIndex : Nat
  metadata1Builder : Nat
  metadata2Builder : Nat
  L0BlockOneCounter : Nat
  superBlockOneCounter : Nat
  superblockIndex : Nat
  nextSelectCacheThreshold_0 : Nat
  nextSelectCacheThreshold_1 : Nat
  L0SingleBlockData : Nat
  oneCount : Nat
  zeroCount : Nat
  lastOnePos : Nat
  lastZeroPos : Nat
  selectCache_0 : List Nat
  selectCache_1 : List Nat
  superBlocks : List Nat
deriving DecidableEq

/-- The per-word counter updates of the `buildHelpers` loop (word index,
popcount accumulators and the two last-position caches). -/
def buildStepCount (vectorIndex word : Nat) (st : BState) : BState :=
  let onesInBlock := popcount word
  { st with
    wordIndex := st.wordIndex + 1,
    superBlockOneCounter := st.superBlockOneCounter + onesInBlock,
    L0BlockOneCounter := st.L0BlockOneCounter + onesInBlock,
    oneCount := st.oneCount + onesInBlock,
    zeroCount := st.zeroCount + (64 - onesInBlock),
    lastOnePos := if 0 < onesInBlock then (vectorIndex <<< 6) + (63 - clz64 word)
      else st.lastOnePos,
    lastZeroPos := if onesInBlock < 64 then (vectorIndex <<< 6) + (63 - clz64 (compl64 word))
      else st.lastZeroPos }

/-- The 1-side select-cache update of the `buildHelpers` loop. -/
def buildStepCache1 (st : BState) : BState :=
  if st.nextSelectCacheThreshold_1 ≤ st.oneCount then
    { st with
      nextSelectCacheThreshold_1 := st.nextSelectCacheThreshold_1 + EVERY_OTHER_1_POS,
      selectCache_1 := st.selectCache_1 ++ [(st.superblockIndex >>> 1) % 2 ^ 32] }
  else st

/-- The 0-side select-cache update of the `buildHelpers` loop. -/
def buildStepCache0 (st : BState) : BState :=
  if st.nextSelectCacheThreshold_0 ≤ st.zeroCount then
    { st with
      nextSelectCacheThreshold_0 := st.nextSelectCacheThreshold_0 + EVERY_OTHER_1_POS,
      selectCache_0 := st.selectCache_0 ++ [(st.superblockIndex >>> 1) % 2 ^ 32] }
  else st

/-- Committing a finished superblock: push the two metadata words, perform
the L0 snapshot when the superblock number reaches SUPERBLOCKS_PER_L0, and
seed the next metadata from the running L0 counter. -/
def commitSuperblock (st : BState) : BState :=
  let sb := (st.superBlocks.set st.superblockIndex st.metadata1Builder).set
    (st.superblockIndex + 1) st.metadata2Builder
  let idx := st.superblockIndex + 2
  let st5 := { st with superBlocks := sb, superblockIndex := idx }
  let st6 :=
    if idx >>> 1 = SUPERBLOCKS_PER_L0 then
      { st5 with L0SingleBlockData := st5.oneCount, L0BlockOneCounter := 0 }
    else st5
  { st6 with
    metadata1Builder := (st6.L0BlockOneCounter <<< 20) % 2 ^ 64,
    metadata2Builder := 0, superBlockOneCounter := 0, blockIndex := 0 }

/-- Folding the running in-superblock 1-count into the metadata field of the
finished block, per the 12-bit layout. -/
def commitBlock (st : BState) : BState :=
  let st5 :=
    if st.blockIndex = 0 then
      { st with metadata1Builder :=
          st.metadata1Builder ||| ((st.superBlockOneCounter &&& 0xFFF) <<< 8) }
    else if st.blockIndex = 1 then
      { st with
        metadata1Builder := st.metadata1Builder ||| ((st.superBlockOneCounter >>> 4) &&& 0xFF),
        metadata2Builder := st.metadata2Builder ||| ((st.superBlockOneCounter &&& 0xF) <<< 60) }
    else
      { st with metadata2Builder :=
          st.metadata2Builder |||
            ((st.superBlockOneCounter &&& 0xFFF) <<< ((st.blockIndex - 2) * 12)) }
  { st5 with blockIndex := st5.blockIndex + 1 }

/-- The block and superblock boundary handling of the `buildHelpers` loop. -/
def buildStepCommit (isLast : Bool) (st : BState) : BState :=
  if st.wordIndex = 8 ∨ isLast then
    let st4 := { st with wordIndex := 0 }
    if st4.blockIndex = 7 then commitSuperblock st4 else commitBlock st4
  else st

/-- One iteration of the `buildHelpers` loop, processing the word at
`vectorIndex`; `isLast` tells whether this is the final loop iteration. -/
def buildStep (vectorIndex : Nat) (isLast : Bool) (word : Nat) (st : BState) : BState :=
  buildStepCommit isLast (buildStepCache0 (buildStepCache1 (buildStepCount vectorIndex word st)))

/-- The `buildHelpers` loop over the word array. -/
def buildLoop (vectorIndex : Nat) : List Nat → BState → BState
  | [], st => st
  | [w], st => buildStep vectorIndex true w st
  | w :: ws, st => buildLoop (vectorIndex + 1) ws (buildStep vectorIndex false w st)

/-- The initial loop state of `bitvector::buildHelpers`: all builder locals
zeroed and the superblock array allocated at `(size >> 6 << 1) + 2` words. -/
def buildInit (bv : bitvector) : BState :=
  { wordIndex := 0, blockIndex := 0, metadata1Builder := 0, metadata2Builder := 0,
    L0BlockOneCounter := 0, superBlockOneCounter := 0, superblockIndex := 0,
    nextSelectCacheThreshold_0 := EVERY_OTHER_1_POS,
    nextSelectCacheThreshold_1 := EVERY_OTHER_1_POS,
    L0SingleBlockData := bv.L0SingleBlockData,
    oneCount := bv.oneCount, zeroCount := bv.zeroCount,
    lastOnePos := bv.lastOnePos, lastZeroPos := bv.lastZeroPos,
    selectCache_0 := bv.selectCache_0, selectCache_1 := bv.selectCache_1,
    superBlocks := List.replicate (((bv.vector.length >>> 6) <<< 1) + 2) 0 }

/-- The trailing guard of `bitvector::buildHelpers`: after the loop, the
pending metadata pair is flushed when the superblock index is in range. -/
def buildFin2 (fin : BState) : BState :=
  if fin.superblockIndex < fin.superBlocks.length then
    { fin with
      superBlocks := (fin.superBlocks.set fin.superblockIndex fin.metadata1Builder).set
        (fin.superblockIndex + 1) fin.metadata2Builder,
      superblockIndex := fin.superblockIndex + 2 }
  else fin

/-- `bitvector::buildHelpers`: allocates the superblock array, runs the
single pass over the word array and commits the trailing metadata. -/
def buildHelpers (bv : bitvector) : bitvector :=
  let fin2 := buildFin2 (buildLoop 0 bv.vector (buildInit bv))
  { bv with
    superBlocks := fin2.superBlocks,
    selectCache_0 := fin2.selectCache_0, selectCache_1 := fin2.selectCache_1,
    L0SingleBlockData := fin2.L0SingleBlockData,
    oneCount := fin2.oneCount, zeroCount := fin2.zeroCount,
    lastOnePos := fin2.lastOnePos, lastZeroPos := fin2.lastZeroPos }

/-- `bitvector::size`: total bit size of the instance (capacity equals
length in this model). -/
def size (bv : bitvector) : Nat :=
  320 + bv.vector.length * 64 + bv.superBlocks.length * 64 +
    bv.selectCache_0.length * 32 + bv.selectCache_1.length * 32

/-! ### Specification-side definitions -/

/-- Whether the constructor keeps a character: the source skips `c` exactly
when `c > '1' || c < '0'`. -/
def keptChar (c : Nat) : Bool := decide (¬ (49 < c ∨ c < 48))

/-- The bit values of the accepted characters of the input, in order. -/
def acceptedBits (s : List Nat) : List Nat :=
  (s.filter keptChar).map (fun c => c - 48)

/-- `N`: the number of bits of the logical sequence. -/
def numBits (s : List Nat) : Nat := (acceptedBits s).length

/-- Bit `i` of the packed word array (bit `i % 64` of word `i / 64`). -/
def bitAt (W : List Nat) (i : Nat) : Nat := bitOf (W.getD (i / 64) 0) (i % 64)

/-- Number of 1 bits among the first `i` bits of the packed word array. -/
def onesUpTo (W : List Nat) : Nat → Nat
  | 0 => 0
  | i + 1 => onesUpTo W i + bitAt W (i + 1 - 1)

/-! ### Bit toolkit -/

theorem bitOf_lt_two (x i : Nat) : bitOf x i < 2 := Nat.mod_lt _ (by omega)

theorem bitOf_testBit (x i : Nat) : bitOf x i = if x.testBit i then 1 else 0 := by
  rw [Nat.testBit_to_div_mod]
  have h2 := bitOf_lt_two x i
  interval_cases h : bitOf x i <;> simp_all [bitOf]

theorem bitOf_zero_word (i : Nat) : bitOf 0 i = 0 := by simp [bitOf]

theorem bitOf_eq_zero_of_lt {x : Nat} {i : Nat} (h : x < 2 ^ i) : bitOf x i = 0 := by
  simp [bitOf, Nat.div_eq_of_lt h]

theorem wordOnes_zero_word (n : Nat) : wordOnes 0 n = 0 := by
  induction n with
  | zero => rfl
  | succ k ih => simp [wordOnes, ih, bitOf_zero_word]

theorem wordOnes_eq_zero {w : Nat} : ∀ {n : Nat}, wordOnes w n = 0 → ∀ k, k < n → bitOf w k = 0 := by
  intro n
  induction n with
  | zero => intro _ k hk; omega
  | succ m ih =>
    intro h k hk
    simp only [wordOnes] at h
    rcases Nat.lt_or_ge k m with hkm | hkm
    · exact ih (by omega) k hkm
    · have : k = m := by omega
      subst this
      omega

theorem wordOnes_stable {w n : Nat} (h : w < 2 ^ n) :
    ∀ m, n ≤ m → wordOnes w m = wordOnes w n := by
  intro m
  induction m with
  | zero => intro hm; have : n = 0 := by omega
            subst this; rfl
  | succ k ih =>
    intro hm
    rcases Nat.lt_or_ge n (k + 1) with h2 | h2
    · have hk : n ≤ k := by omega
      have hb : bitOf w k = 0 :=
        bitOf_eq_zero_of_lt (Nat.lt_of_lt_of_le h (Nat.pow_le_pow_right (by omega) hk))
      simp only [wordOnes, ih hk, hb, Nat.add_zero]
    · have : n = k + 1 := by omega
      subst this; rfl

theorem popcount_eq_wordOnes {n w : Nat} (h : w < 2 ^ n) (hn : n ≤ 64) :
    popcount w = wordOnes w n := by
  rw [popcount]
  exact wordOnes_stable h 64 hn

theorem wordOnes_le (w n : Nat) : wordOnes w n ≤ n := by
  induction n with
  | zero => exact Nat.le_refl 0
  | succ k ih => have := bitOf_lt_two w k; simp only [wordOnes]; omega

theorem popcount_le_64 (w : Nat) : popcount w ≤ 64 := wordOnes_le w 64

theorem popcount_le_of_lt {w n : Nat} (h : w < 2 ^ n) (hn : n ≤ 64) : popcount w ≤ n := by
  rw [popcount_eq_wordOnes h hn]
  exact wordOnes_le w n

theorem popcount_eq_zero {w : Nat} (hw : w < 2 ^ 64) (h : popcount w = 0) : w = 0 := by
  apply Nat.eq_of_testBit_eq
  intro i
  rcases Nat.lt_or_ge i 64 with hi | hi
  · have hb : bitOf w i = 0 := wordOnes_eq_zero h i hi
    rw [bitOf_testBit] at hb
    rcases Bool.eq_false_or_eq_true (Nat.testBit w i) with hbt | hbt <;> simp_all
  · rw [Nat.testBit_lt_two_pow (Nat.lt_of_lt_of_le hw (Nat.pow_le_pow_right (by omega) hi))]
    simp

theorem popcount_pos {w : Nat} (h0 : 0 < w) (hw : w < 2 ^ 64) : 0 < popcount w := by
  rcases Nat.eq_zero_or_pos (popcount w) with h | h
  · have := popcount_eq_zero hw h
    omega
  · exact h

theorem popcount_and_mask_le (w r : Nat) (hr : r ≤ 64) :
    popcount (w &&& (1 <<< r) - 1) ≤ r := by
  have h1 : (1 : Nat) <<< r = 2 ^ r := by rw [Nat.shiftLeft_eq, Nat.one_mul]
  rw [h1, Nat.and_pow_two_sub_one_eq_mod]
  exact popcount_le_of_lt (Nat.mod_lt _ (Nat.pos_pow_of_pos r (by omega))) hr

theorem compl64_lt (w : Nat) (h : w < 2 ^ 64) : compl64 w < 2 ^ 64 :=
  Nat.xor_lt_two_pow h (by norm_num)

theorem bitOf_compl64 (w k : Nat) (hk : k < 64) : bitOf (compl64 w) k = 1 - bitOf w k := by
  rw [bitOf_testBit, bitOf_testBit, compl64, Nat.testBit_xor,
    Nat.testBit_two_pow_sub_one, decide_eq_true hk]
  cases Nat.testBit w k <;> rfl

theorem wordOnes_add_compl (w : Nat) : ∀ n, n ≤ 64 →
    wordOnes w n + wordOnes (compl64 w) n = n := by
  intro n
  induction n with
  | zero => intro; rfl
  | succ k ih =>
    intro hk
    have h1 := ih (by omega)
    have h2 := bitOf_compl64 w k (by omega)
    have h3 := bitOf_lt_two w k
    simp only [wordOnes]; omega

theorem popcount_compl64 (w : Nat) : popcount (compl64 w) = 64 - popcount w := by
  have h3 := wordOnes_add_compl w 64 (by omega)
  have h4 := wordOnes_le w 64
  rw [popcount, popcount]
  omega

theorem shiftRight_eq_zero {x n : Nat} (h : x < 2 ^ n) : x >>> n = 0 := by
  rw [Nat.shiftRight_eq_div_pow]; exact Nat.div_eq_of_lt h

theorem or_shiftRight (x y n : Nat) : (x ||| y) >>> n = (x >>> n) ||| (y >>> n) := by
  apply Nat.eq_of_testBit_eq
  intro i
  simp [Nat.testBit_lor]

theorem or_and (x y m : Nat) : (x ||| y) &&& m = (x &&& m) ||| (y &&& m) := by
  apply Nat.eq_of_testBit_eq
  intro i
  simp [Nat.testBit_lor, Nat.testBit_land, Bool.and_or_distrib_right]

theorem or_shiftRight_high {x y : Nat} (n : Nat) (h : y < 2 ^ n) :
    (x ||| y) >>> n = x >>> n := by
  rw [or_shiftRight, shiftRight_eq_zero h, Nat.or_zero]

theorem or_eq_zero {x y : Nat} (h : x ||| y = 0) : x = 0 ∧ y = 0 := by
  constructor <;> {
    apply Nat.eq_of_testBit_eq
    intro i
    have := congrArg (fun z => Nat.testBit z i) h
    simp only [Nat.testBit_lor, Nat.zero_testBit] at this
    simp_all }

theorem le_or_left (x y : Nat) : x ≤ x ||| y := by
  have h1 : x &&& (x ||| y) = x := by
    apply Nat.eq_of_testBit_eq
    intro i
    simp only [Nat.testBit_land, Nat.testBit_lor]
    cases Nat.testBit x i <;> simp
  calc x = x &&& (x ||| y) := h1.symm
    _ ≤ x ||| y := Nat.and_le_right

theorem or_lt_64 {x y : Nat} (hx : x < 2 ^ 64) (hy : y < 2 ^ 64) : x ||| y < 2 ^ 64 :=
  Nat.or_lt_two_pow hx hy

/-! ### List access helpers -/

theorem getD_set_eq {l : List Nat} {i x : Nat} (h : i < l.length) :
    (l.set i x).getD i 0 = x := by
  simp [List.getD_eq_getElem?_getD, List.getElem?_set_self (by simpa using h)]

theorem getD_set_ne {l : List Nat} {i j x : Nat} (h : i ≠ j) :
    (l.set i x).getD j 0 = l.getD j 0 := by
  simp [List.getD_eq_getElem?_getD, List.getElem?_set_ne h]

theorem getD_append_left {l1 l2 : List Nat} {j : Nat} (h : j < l1.length) :
    (l1 ++ l2).getD j 0 = l1.getD j 0 := by
  simp [List.getD_eq_getElem?_getD, List.getElem?_append_left h]

theorem getD_append_last {l : List Nat} {d : Nat} :
    (l ++ [d]).getD l.length 0 = d := by
  simp [List.getD_eq_getElem?_getD, List.getElem?_concat_length]

theorem getD_replicate_any {n x j : Nat} : (List.replicate n x).getD j x = x := by
  rcases Nat.lt_or_ge j n with h | h
  · simp [List.getD_eq_getElem?_getD, List.getElem?_replicate_of_lt h]
  · simp [List.getD_eq_getElem?_getD, List.getElem?_replicate, Nat.not_lt.2 h]

theorem getD_replicate_zero {n j : Nat} : (List.replicate n (0 : Nat)).getD j 0 = 0 :=
  getD_replicate_any

/-! ### More bit helpers -/

theorem bitOf_or (x y k : Nat) : bitOf (x ||| y) k = max (bitOf x k) (bitOf y k) := by
  rw [bitOf_testBit, bitOf_testBit, bitOf_testBit, Nat.testBit_lor]
  cases Nat.testBit x k <;> cases Nat.testBit y k <;> rfl

theorem bitOf_shiftLeft (d m k : Nat) :
    bitOf (d <<< m) k = if k < m then 0 else bitOf d (k - m) := by
  rw [bitOf_testBit, Nat.testBit_shiftLeft]
  rcases Nat.lt_or_ge k m with h | h
  · simp [Nat.not_le.2 h, if_pos h]
  · simp [h, bitOf_testBit, if_neg (Nat.not_lt.2 h)]

/-! ### Constructor invariant -/

/-- Loop invariant of the constructor: after the accepted characters so far
carry the bit list `A`, the state packs `A` into the word array of length
`L` (full words written, the partial word in `currentConstruction`). -/
structure MkInv (L : Nat) (A : List Nat) (st : MkState) : Prop where
  lenEq : st.vec.length = L
  outerEq : st.outerIndex = A.length / 64
  innerEq : st.innerIndex = A.length % 64
  curLt : st.currentConstruction < 2 ^ (A.length % 64)
  curBits : ∀ k, k < A.length % 64 →
    bitOf st.currentConstruction k = A.getD (64 * (A.length / 64) + k) 0
  wordBits : ∀ j, j < A.length / 64 → ∀ k, k < 64 →
    bitOf (st.vec.getD j 0) k = A.getD (64 * j + k) 0
  wordLt : ∀ j, st.vec.getD j 0 < 2 ^ 64
  highZero : ∀ j, A.length / 64 ≤ j → st.vec.getD j 0 = 0

theorem mkStep_skip {st : MkState} {c : Nat} (h : 49 < c ∨ c < 48) :
    mkStep st c = st := by
  rw [mkStep, if_pos h]

theorem mkStep_inv {L : Nat} {A : List Nat} {st : MkState} {c : Nat}
    (inv : MkInv L A st) (hc : ¬ (49 < c ∨ c < 48)) (room : A.length < 64 * L) :
    MkInv L (A ++ [c - 48]) (mkStep st c) := by
  have hd : c - 48 < 2 := by omega
  set d := c - 48 with hdef
  set n := A.length with hn
  have hlen2 : (A ++ [d]).length = n + 1 := by simp
  have hAk : ∀ j, j < n → (A ++ [d]).getD j 0 = A.getD j 0 := fun j hj => getD_append_left hj
  have hAn : (A ++ [d]).getD n 0 = d := getD_append_last
  have hcur2lt : st.currentConstruction ||| (d <<< st.innerIndex) < 2 ^ (n % 64 + 1) := by
    apply Nat.or_lt_two_pow
    · exact Nat.lt_of_lt_of_le inv.curLt (Nat.pow_le_pow_right (by omega) (by omega))
    · rw [inv.innerEq, Nat.shiftLeft_eq, pow_succ]
      have : 2 ^ (n % 64) > 0 := Nat.pos_pow_of_pos _ (by omega)
      nlinarith
  have hcur2low : ∀ k, k < n % 64 →
      bitOf (st.currentConstruction ||| (d <<< st.innerIndex)) k = bitOf st.currentConstruction k := by
    intro k hk
    rw [bitOf_or, bitOf_shiftLeft, inv.innerEq, if_pos hk]
    omega
  have hcur2top : bitOf (st.currentConstruction ||| (d <<< st.innerIndex)) (n % 64) = d := by
    rw [bitOf_or, bitOf_shiftLeft, inv.innerEq, if_neg (by omega), Nat.sub_self]
    have h1 : bitOf st.currentConstruction (n % 64) = 0 := bitOf_eq_zero_of_lt inv.curLt
    have h2 : bitOf d 0 = d := by simp [bitOf]; omega
    rw [h1, h2]; omega
  rw [mkStep, if_neg hc]
  by_cases hfull : 64 ≤ st.innerIndex + 1
  · -- the word fills up: write it out
    rw [if_pos hfull]
    have hmod : n % 64 = 63 := by have := inv.innerEq; omega
    have hdiv : (n + 1) / 64 = n / 64 + 1 := by omega
    have hmod2 : (n + 1) % 64 = 0 := by omega
    have houter : n / 64 < st.vec.length := by
      rw [inv.lenEq]; omega
    refine ⟨by simpa using inv.lenEq, ?_, ?_, ?_, ?_, ?_, ?_, ?_⟩
    · simp only [hlen2, hdiv, inv.outerEq]
    · simp [hlen2, hmod2]
    · simp [hlen2, hmod2]
    · intro k hk; rw [hlen2] at hk; omega
    · -- word bits, including the freshly written word
      intro j hj k hk
      rw [hlen2, hdiv] at hj
      rcases Nat.lt_or_ge j (n / 64) with hjlt | hjge
      · rw [getD_set_ne (by rw [inv.outerEq]; omega), inv.wordBits j hjlt k hk, hAk]
        have := Nat.div_add_mod n 64
        omega
      · have hj64 : j = n / 64 := by omega
        subst hj64
        rw [inv.outerEq, getD_set_eq houter]
        rcases Nat.lt_or_ge k 63 with hk63 | hk63
        · rw [hcur2low k (by omega), inv.curBits k (by omega), hAk]
          have := Nat.div_add_mod n 64
          omega
        · have hk' : k = 63 := by omega
          subst hk'
          rw [← hmod, hcur2top, Nat.div_add_mod, hAn]
    · intro j
      by_cases h : st.outerIndex = j
      · subst h
        rw [inv.outerEq, getD_set_eq houter]
        exact Nat.lt_of_lt_of_le hcur2lt (Nat.pow_le_pow_right (by omega) (by omega))
      · rw [getD_set_ne h]; exact inv.wordLt j
    · intro j hj
      rw [hlen2, hdiv] at hj
      rw [getD_set_ne (by rw [inv.outerEq]; omega)]
      exact inv.highZero j (by omega)
  · -- the word is still partial
    rw [if_neg hfull]
    have hmod : n % 64 < 63 := by have := inv.innerEq; omega
    have hdiv : (n + 1) / 64 = n / 64 := by omega
    have hmod2 : (n + 1) % 64 = n % 64 + 1 := by omega
    refine ⟨inv.lenEq, ?_, ?_, ?_, ?_, ?_, inv.wordLt, ?_⟩
    · simp only [hlen2, hdiv]; exact inv.outerEq
    · simp only [hlen2, hmod2]; rw [inv.innerEq]
    · simpa only [hlen2, hmod2] using hcur2lt
    · intro k hk
      rw [hlen2, hmod2] at hk
      rw [hlen2, hdiv]
      rcases Nat.lt_or_ge k (n % 64) with hklt | hkge
      · rw [hcur2low k hklt, inv.curBits k hklt, hAk]
        have := Nat.div_add_mod n 64
        omega
      · have hk' : k = n % 64 := by omega
        subst hk'
        have : 64 * (n / 64) + n % 64 = n := Nat.div_add_mod n 64
        rw [hcur2top, this, hAn]
    · intro j hj k hk
      rw [hlen2, hdiv] at hj
      rw [inv.wordBits j hj k hk, hAk]
      have := Nat.div_add_mod n 64
      omega
    · intro j hj
      rw [hlen2, hdiv] at hj
      exact inv.highZero j hj

theorem acceptedBits_cons_skip {c : Nat} (s : List Nat) (h : 49 < c ∨ c < 48) :
    acceptedBits (c :: s) = acceptedBits s := by
  have : keptChar c = false := by simp [keptChar]; omega
  simp [acceptedBits, List.filter, this]

theorem acceptedBits_cons_keep {c : Nat} (s : List Nat) (h : ¬ (49 < c ∨ c < 48)) :
    acceptedBits (c :: s) = (c - 48) :: acceptedBits s := by
  have : keptChar c = true := by simp [keptChar]; omega
  simp [acceptedBits, List.filter, this]

theorem mkFold_inv : ∀ (r : List Nat) (A : List Nat) (st : MkState) (L : Nat),
    MkInv L A st → A.length + (acceptedBits r).length < 64 * L →
    MkInv L (A ++ acceptedBits r) (r.foldl mkStep st) := by
  intro r
  induction r with
  | nil => intro A st L inv _; simpa [acceptedBits] using inv
  | cons c cs ih =>
    intro A st L inv room
    by_cases hc : 49 < c ∨ c < 48
    · rw [acceptedBits_cons_skip cs hc] at room ⊢
      rw [List.foldl_cons, mkStep_skip hc]
      exact ih A st L inv room
    · rw [acceptedBits_cons_keep cs hc] at room ⊢
      rw [List.foldl_cons]
      have step := mkStep_inv inv hc (by simp at room; omega)
      have := ih (A ++ [c - 48]) (mkStep st c) L step (by simp at room ⊢; omega)
      simpa using this

theorem numBits_le_length (s : List Nat) : numBits s ≤ s.length := by
  rw [numBits, acceptedBits, List.length_map]
  exact List.length_filter_le _ s

theorem length_lt_wordBits (s : List Nat) : s.length < 64 * ((s.length >>> 6) + 1) := by
  rw [Nat.shiftRight_eq_div_pow]
  norm_num
  omega

theorem mk_invariant (s : List Nat) :
    MkInv ((s.length >>> 6) + 1) (acceptedBits s)
      (s.foldl mkStep
        { innerIndex := 0, outerIndex := 0, currentConstruction := 0,
          vec := List.replicate ((s.length >>> 6) + 1) 0 }) := by
  have init : MkInv ((s.length >>> 6) + 1) []
      { innerIndex := 0, outerIndex := 0, currentConstruction := 0,
        vec := List.replicate ((s.length >>> 6) + 1) 0 } := by
    refine ⟨by simp, by simp, by simp, by simp, ?_, ?_, ?_, ?_⟩
    · intro k hk; simp at hk
    · intro j hj; simp at hj
    · intro j; rw [getD_replicate_zero]; exact Nat.pos_pow_of_pos _ (by omega)
    · intro j _; exact getD_replicate_zero
  have room : ([] : List Nat).length + (acceptedBits s).length < 64 * ((s.length >>> 6) + 1) := by
    have h1 := numBits_le_length s
    have h2 := length_lt_wordBits s
    simp only [List.length_nil, Nat.zero_add]
    exact Nat.lt_of_le_of_lt h1 h2
  simpa using mkFold_inv s [] _ _ init room

theorem mk_vector_length (s : List Nat) :
    (mkBitvector s).vector.length = (s.length >>> 6) + 1 := by
  show (List.set _ _ _).length = _
  rw [List.length_set]
  exact (mk_invariant s).lenEq

theorem mk_bitAt (s : List Nat) (i : Nat) (h : i < numBits s) :
    bitAt (mkBitvector s).vector i = (acceptedBits s).getD i 0 := by
  have inv := mk_invariant s
  have hrooml : (acceptedBits s).length < 64 * ((s.length >>> 6) + 1) :=
    Nat.lt_of_le_of_lt (numBits_le_length s) (length_lt_wordBits s)
  rw [numBits] at h
  show bitOf ((List.set _ _ _).getD (i / 64) 0) (i % 64) = _
  have hdm := Nat.div_add_mod i 64
  have hdmN := Nat.div_add_mod (acceptedBits s).length 64
  rcases Nat.lt_or_ge (i / 64) ((acceptedBits s).length / 64) with hlt | hge
  · rw [getD_set_ne (by rw [inv.outerEq]; omega)]
    rw [inv.wordBits (i / 64) hlt (i % 64) (by omega), hdm]
  · have hle : i / 64 ≤ (acceptedBits s).length / 64 := Nat.div_le_div_right (Nat.le_of_lt h)
    have heq : i / 64 = (acceptedBits s).length / 64 := by omega
    have hm : i % 64 < (acceptedBits s).length % 64 := by omega
    rw [inv.outerEq, heq, getD_set_eq (by rw [inv.lenEq]; omega)]
    rw [inv.curBits (i % 64) hm, ← heq, hdm]

theorem mk_bitAt_high (s : List Nat) (i : Nat) (h : numBits s ≤ i) :
    bitAt (mkBitvector s).vector i = 0 := by
  have inv := mk_invariant s
  have hrooml : (acceptedBits s).length < 64 * ((s.length >>> 6) + 1) :=
    Nat.lt_of_le_of_lt (numBits_le_length s) (length_lt_wordBits s)
  rw [numBits] at h
  show bitOf ((List.set _ _ _).getD (i / 64) 0) (i % 64) = 0
  have hdm := Nat.div_add_mod i 64
  have hdmN := Nat.div_add_mod (acceptedBits s).length 64
  have hge : (acceptedBits s).length / 64 ≤ i / 64 := Nat.div_le_div_right h
  rcases Nat.lt_or_ge ((acceptedBits s).length / 64) (i / 64) with hlt | hge2
  · rw [getD_set_ne (by rw [inv.outerEq]; omega)]
    rw [inv.highZero (i / 64) (by omega)]
    exact bitOf_zero_word _
  · have heq : i / 64 = (acceptedBits s).length / 64 := by omega
    have hm : (acceptedBits s).length % 64 ≤ i % 64 := by omega
    rw [inv.outerEq, heq, getD_set_eq (by rw [inv.lenEq]; omega)]
    exact bitOf_eq_zero_of_lt
      (Nat.lt_of_lt_of_le inv.curLt (Nat.pow_le_pow_right (by omega) hm))

theorem mk_word_lt (s : List Nat) (j : Nat) : (mkBitvector s).vector.getD j 0 < 2 ^ 64 := by
  have inv := mk_invariant s
  show (List.set _ _ _).getD j 0 < 2 ^ 64
  by_cases h : (s.foldl mkStep
      { innerIndex := 0, outerIndex := 0, currentConstruction := 0,
        vec := List.replicate ((s.length >>> 6) + 1) 0 }).outerIndex = j
  · rcases Nat.lt_or_ge j (s.foldl mkStep
        { innerIndex := 0, outerIndex := 0, currentConstruction := 0,
          vec := List.replicate ((s.length >>> 6) + 1) 0 }).vec.length with hj | hj
    · rw [← h, getD_set_eq (h ▸ hj)]
      exact Nat.lt_of_lt_of_le inv.curLt (Nat.pow_le_pow_right (by omega) (by omega))
    · rw [List.getD_eq_getElem?_getD, List.getElem?_eq_none (by rw [List.length_set]; omega)]
      exact Nat.pos_pow_of_pos _ (by omega)
  · rw [getD_set_ne h]
    exact inv.wordLt j

theorem access_eq_bitAt (bv : bitvector) (i : Nat) : access bv i = bitAt bv.vector i := by
  rw [access, bitAt, bitOf]
  have h1 : i >>> 6 = i / 64 := by rw [Nat.shiftRight_eq_div_pow]
  have h2 : i &&& (1 <<< 6) - 1 = i % 64 := by
    have : (1 : Nat) <<< 6 = 2 ^ 6 := by rw [Nat.shiftLeft_eq, Nat.one_mul]
    rw [this, Nat.and_pow_two_sub_one_eq_mod]
  have h3 : ∀ x : Nat, x &&& 1 = x % 2 := by
    intro x
    have : (1 : Nat) = 2 ^ 1 - 1 := by norm_num
    rw [this, Nat.and_pow_two_sub_one_eq_mod, pow_one]
  rw [h1, h2, h3, Nat.shiftRight_eq_div_pow]

/-- C3: the constructor skips every character other than the characters zero
and one; the i-th accepted character becomes bit `B[i]` (bit `i % 64` of
word `i / 64`, least significant bit first, which is what `access` reads
back); in particular for an input of only zero and one characters, reading
`access 0 .. access (len - 1)` reproduces the input (round trip). -/
theorem C3_constructor_roundtrip :
    (∀ (s : List Nat) (i : Nat), i < numBits s →
      access (mkBitvector s) i = (acceptedBits s).getD i 0) ∧
    (∀ s : List Nat, (∀ c ∈ s, c = 48 ∨ c = 49) → ∀ i, i < s.length →
      access (mkBitvector s) i = s.getD i 0 - 48) := by
  constructor
  · intro s i h
    rw [access_eq_bitAt]
    exact mk_bitAt s i h
  · intro s hall i hi
    have hkeep : ∀ c ∈ s, keptChar c = true := by
      intro c hc
      rcases hall c hc with h | h <;> simp [keptChar, h]
    have hfil : s.filter keptChar = s := List.filter_eq_self.2 hkeep
    have hacc : acceptedBits s = s.map (fun c => c - 48) := by
      rw [acceptedBits, hfil]
    have hlen : numBits s = s.length := by rw [numBits, hacc, List.length_map]
    rw [access_eq_bitAt, mk_bitAt s i (by omega), hacc]
    rw [List.getD_eq_getElem?_getD, List.getElem?_map, List.getD_eq_getElem?_getD,
      List.getElem?_eq_getElem hi]
    rfl

/-- Witness for C3 at a concrete input containing a skipped character. -/
theorem C3_constructor_roundtrip_witness :
    (1 < numBits [49, 13, 48] ∧
      access (mkBitvector [49, 13, 48]) 1 = (acceptedBits [49, 13, 48]).getD 1 0) ∧
    ((∀ c ∈ [49, 48], c = 48 ∨ c = 49) ∧
      access (mkBitvector [49, 48]) 0 = [49, 48].getD 0 0 - 48) :=
  ⟨⟨by decide, C3_constructor_roundtrip.1 [49, 13, 48] 1 (by decide)⟩,
    ⟨by decide, C3_constructor_roundtrip.2 [49, 48] (by decide) 0 (by decide)⟩⟩

/-! ### Dispatch, clamp, superRank condition -/

theorem buildHelpers_vector (bv : bitvector) : (buildHelpers bv).vector = bv.vector := rfl

/-- C10: both query entry points dispatch solely on whether the bit-value
argument equals 1; every other value (also 2, 255, ...) is treated as 0. -/
theorem C10_bit_value_dispatch (bv : bitvector) (i k v : Nat) (hv : v ≠ 1) :
    rank bv i v = rank bv i 0 ∧ select bv k v = select bv k 0 := by
  constructor
  · simp only [rank, if_neg hv, if_neg (show ¬ (0 : Nat) = 1 by omega)]
  · rw [select, select, if_neg hv, if_neg (show ¬ (0 : Nat) = 1 by omega)]

/-- Witness for C10 at the bit value 2 on a built bitvector. -/
theorem C10_bit_value_dispatch_witness :
    (2 ≠ 1) ∧
      (rank (buildHelpers (mkBitvector [49, 48])) 1 2 =
        rank (buildHelpers (mkBitvector [49, 48])) 1 0 ∧
      select (buildHelpers (mkBitvector [49, 48])) 1 2 =
        select (buildHelpers (mkBitvector [49, 48])) 1 0) :=
  ⟨by decide, C10_bit_value_dispatch (buildHelpers (mkBitvector [49, 48])) 1 1 2 (by decide)⟩

/-- C4 counterexample: for bv("1") (N = 1) and position 2 > N, the code
returns rank(2, 1) = 1 while rank(N - 1, 1) = rank(0, 1) = 0, so an
out-of-range position is not ranked as if clamped to N - 1. -/
theorem C4_cex_not_clamped_to_N :
    numBits [49] = 1 ∧ 1 < 2 ∧
      ¬ (rank (buildHelpers (mkBitvector [49])) 2 1 =
        rank (buildHelpers (mkBitvector [49])) (numBits [49] - 1) 1) := by decide

/-- C4 amended: the clamp bound of rank is the last position of the padded
word array, 64 * |W| - 1 (not N - 1): every position at or above that bound
is ranked as the bound itself. -/
theorem C4_rank_clamped (s : List Nat) (b i : Nat)
    (h : 64 * (mkBitvector s).vector.length - 1 ≤ i) :
    rank (buildHelpers (mkBitvector s)) i b =
      rank (buildHelpers (mkBitvector s)) (64 * (mkBitvector s).vector.length - 1) b := by
  have hL : 1 ≤ (mkBitvector s).vector.length := by rw [mk_vector_length]; omega
  have hB : (buildHelpers (mkBitvector s)).vector.length <<< 6 - 1 =
      64 * (mkBitvector s).vector.length - 1 := by
    rw [buildHelpers_vector, Nat.shiftLeft_eq]
    norm_num
    omega
  rcases Nat.eq_or_lt_of_le h with heq | hlt
  · rw [← heq]
  · simp only [rank, hB]
    rw [if_neg (show ¬ i = 0 by omega),
      if_neg (show ¬ 64 * (mkBitvector s).vector.length - 1 = 0 by omega),
      if_pos hlt,
      if_neg (show ¬ (64 * (mkBitvector s).vector.length - 1 <
        64 * (mkBitvector s).vector.length - 1) by omega)]

/-- Witness for C4 at bv("1") and position 100. -/
theorem C4_rank_clamped_witness :
    64 * (mkBitvector [49]).vector.length - 1 ≤ 100 ∧
      rank (buildHelpers (mkBitvector [49])) 100 1 =
        rank (buildHelpers (mkBitvector [49])) (64 * (mkBitvector [49]).vector.length - 1) 1 :=
  ⟨by decide, C4_rank_clamped [49] 1 100 (by decide)⟩

/-- The cumulative count of the claim wording for C5: the L0 correction
applied exactly when the superblock's starting bit position `mid * 4096`
exceeds the first L0 region of `2 ^ 45 - 1` bits. -/
def superRankSpecC5 (bv : bitvector) (ptr : Nat) : Nat :=
  (if 2 ^ 45 - 1 < ptr * 4096 then bv.L0SingleBlockData else 0) +
    (bv.superBlocks.getD (ptr <<< 1) 0 >>> 20)

/-- A bitvector state with a nonzero L0 value and an all-zero superblock
array reaching superblock number 2 ^ 33. -/
def c5Input : bitvector :=
  { vector := [], superBlocks := List.replicate (2 ^ 34 + 2) 0,
    selectCache_0 := [], selectCache_1 := [], L0SingleBlockData := 7,
    oneCount := 0, zeroCount := 0, lastOnePos := 0, lastZeroPos := 0 }

/-- C5 counterexample: at superblock number mid = 2 ^ 33 the starting bit
position mid * 4096 = 2 ^ 45 exceeds 2 ^ 45 - 1, so the claim adds the L0
correction, but the code compares mid itself with L0BLOCK_SIZE = 2 ^ 44 - 1
and does not. -/
theorem C5_cex_condition_differs : superRank c5Input (2 ^ 33) ≠ superRankSpecC5 c5Input (2 ^ 33) := by
  have h1 : c5Input.superBlocks.getD (2 ^ 33 <<< 1) 0 = 0 := getD_replicate_zero
  rw [superRank, superRankSpecC5, h1]
  rw [if_neg (by rw [L0BLOCK_SIZE]; norm_num), if_pos (by norm_num)]
  show (0 : Nat) + 0 >>> 20 ≠ c5Input.L0SingleBlockData + 0 >>> 20
  rw [Nat.zero_shiftRight]
  show (0 : Nat) ≠ 7 + 0
  omega

/-- C5 amended: superRank includes the L0Ones correction exactly when the
superblock number itself exceeds L0BLOCK_SIZE = 2 ^ 44 - 1 (the code
compares the number mid, not the bit position mid * 4096, and the constant
is 2 ^ 44 - 1, not 2 ^ 45 - 1). -/
theorem C5_superRank_l0_condition (bv : bitvector) (mid : Nat) :
    (mid ≤ L0BLOCK_SIZE → superRank bv mid = bv.superBlocks.getD (mid <<< 1) 0 >>> 20) ∧
    (L0BLOCK_SIZE < mid →
      superRank bv mid = bv.L0SingleBlockData + (bv.superBlocks.getD (mid <<< 1) 0 >>> 20)) := by
  constructor
  · intro h
    rw [superRank, if_neg (by omega)]
    exact Nat.zero_add _
  · intro h
    rw [superRank, if_pos h]

/-- Witness for C5 on a built bitvector at superblock number 0. -/
theorem C5_superRank_l0_condition_witness :
    0 ≤ L0BLOCK_SIZE ∧
      superRank (buildHelpers (mkBitvector [49, 48])) 0 =
        (buildHelpers (mkBitvector [49, 48])).superBlocks.getD (0 <<< 1) 0 >>> 20 :=
  ⟨by decide, (C5_superRank_l0_condition (buildHelpers (mkBitvector [49, 48])) 0).1 (by decide)⟩

/-- C2: evaluation at the failing input bv("10"): the counter zeroCount
(the code's total_count(0)) is 63 because it counts the zero padding of the
word array; select(63, 0) returns the padding position 63, and
rank(select(63, 0) + 1, 0) = 62, not 63. -/
theorem C2_rank_select_bug_eval :
    (buildHelpers (mkBitvector [49, 48])).zeroCount = 63 ∧
      numBits [49, 48] = 2 ∧
      select (buildHelpers (mkBitvector [49, 48])) 63 0 = 63 ∧
      rank (buildHelpers (mkBitvector [49, 48])) (63 + 1) 0 = 62 := by decide


/-! ### Field plumbing of the builder stages -/

@[simp] theorem buildStepCache1_wordIndex (st : BState) :
    (buildStepCache1 st).wordIndex = st.wordIndex := by
  rw [buildStepCache1]; split <;> rfl

@[simp] theorem buildStepCache1_blockIndex (st : BState) :
    (buildStepCache1 st).blockIndex = st.blockIndex := by
  rw [buildStepCache1]; split <;> rfl

@[simp] theorem buildStepCache1_metadata1Builder (st : BState) :
    (buildStepCache1 st).metadata1Builder = st.metadata1Builder := by
  rw [buildStepCache1]; split <;> rfl

@[simp] theorem buildStepCache1_metadata2Builder (st : BState) :
    (buildStepCache1 st).metadata2Builder = st.metadata2Builder := by
  rw [buildStepCache1]; split <;> rfl

@[simp] theorem buildStepCache1_L0BlockOneCounter (st : BState) :
    (buildStepCache1 st).L0BlockOneCounter = st.L0BlockOneCounter := by
  rw [buildStepCache1]; split <;> rfl

@[simp] theorem buildStepCache1_superBlockOneCounter (st : BState) :
    (buildStepCache1 st).superBlockOneCounter = st.superBlockOneCounter := by
  rw [buildStepCache1]; split <;> rfl

@[simp] theorem buildStepCache1_superblockIndex (st : BState) :
    (buildStepCache1 st).superblockIndex = st.superblockIndex := by
  rw [buildStepCache1]; split <;> rfl

@[simp] theorem buildStepCache1_L0SingleBlockData (st : BState) :
    (buildStepCache1 st).L0SingleBlockData = st.L0SingleBlockData := by
  rw [buildStepCache1]; split <;> rfl

@[simp] theorem buildStepCache1_oneCount (st : BState) :
    (buildStepCache1 st).oneCount = st.oneCount := by
  rw [buildStepCache1]; split <;> rfl

@[simp] theorem buildStepCache1_zeroCount (st : BState) :
    (buildStepCache1 st).zeroCount = st.zeroCount := by
  rw [buildStepCache1]; split <;> rfl

@[simp] theorem buildStepCache1_lastOnePos (st : BState) :
    (buildStepCache1 st).lastOnePos = st.lastOnePos := by
  rw [buildStepCache1]; split <;> rfl

@[simp] theorem buildStepCache1_lastZeroPos (st : BState) :
    (buildStepCache1 st).lastZeroPos = st.lastZeroPos := by
  rw [buildStepCache1]; split <;> rfl

@[simp] theorem buildStepCache1_selectCache_0 (st : BState) :
    (buildStepCache1 st).selectCache_0 = st.selectCache_0 := by
  rw [buildStepCache1]; split <;> rfl

@[simp] theorem buildStepCache1_superBlocks (st : BState) :
    (buildStepCache1 st).superBlocks = st.superBlocks := by
  rw [buildStepCache1]; split <;> rfl

@[simp] theorem buildStepCache1_nextSelectCacheThreshold_0 (st : BState) :
    (buildStepCache1 st).nextSelectCacheThreshold_0 = st.nextSelectCacheThreshold_0 := by
  rw [buildStepCache1]; split <;> rfl

@[simp] theorem buildStepCache0_wordIndex (st : BState) :
    (buildStepCache0 st).wordIndex = st.wordIndex := by
  rw [buildStepCache0]; split <;> rfl

@[simp] theorem buildStepCache0_blockIndex (st : BState) :
    (buildStepCache0 st).blockIndex = st.blockIndex := by
  rw [buildStepCache0]; split <;> rfl

@[simp] theorem buildStepCache0_metadata1Builder (st : BState) :
    (buildStepCache0 st).metadata1Builder = st.metadata1Builder := by
  rw [buildStepCache0]; split <;> rfl

@[simp] theorem buildStepCache0_metadata2Builder (st : BState) :
    (buildStepCache0 st).metadata2Builder = st.metadata2Builder := by
  rw [buildStepCache0]; split <;> rfl

@[simp] theorem buildStepCache0_L0BlockOneCounter (st : BState) :
    (buildStepCache0 st).L0BlockOneCounter = st.L0BlockOneCounter := by
  rw [buildStepCache0]; split <;> rfl

@[simp] theorem buildStepCache0_superBlockOneCounter (st : BState) :
    (buildStepCache0 st).superBlockOneCounter = st.superBlockOneCounter := by
  rw [buildStepCache0]; split <;> rfl

@[simp] theorem buildStepCache0_superblockIndex (st : BState) :
    (buildStepCache0 st).superblockIndex = st.superblockIndex := by
  rw [buildStepCache0]; split <;> rfl

@[simp] theorem buildStepCache0_L0SingleBlockData (st : BState) :
    (buildStepCache0 st).L0SingleBlockData = st.L0SingleBlockData := by
  rw [buildStepCache0]; split <;> rfl

@[simp] theorem buildStepCache0_oneCount (st : BState) :
    (buildStepCache0 st).oneCount = st.oneCount := by
  rw [buildStepCache0]; split <;> rfl

@[simp] theorem buildStepCache0_zeroCount (st : BState) :
    (buildStepCache0 st).zeroCount = st.zeroCount := by
  rw [buildStepCache0]; split <;> rfl

@[simp] theorem buildStepCache0_lastOnePos (st : BState) :
    (buildStepCache0 st).lastOnePos = st.lastOnePos := by
  rw [buildStepCache0]; split <;> rfl

@[simp] theorem buildStepCache0_lastZeroPos (st : BState) :
    (buildStepCache0 st).lastZeroPos = st.lastZeroPos := by
  rw [buildStepCache0]; split <;> rfl

@[simp] theorem buildStepCache0_selectCache_1 (st : BState) :
    (buildStepCache0 st).selectCache_1 = st.selectCache_1 := by
  rw [buildStepCache0]; split <;> rfl

@[simp] theorem buildStepCache0_superBlocks (st : BState) :
    (buildStepCache0 st).superBlocks = st.superBlocks := by
  rw [buildStepCache0]; split <;> rfl

@[simp] theorem buildStepCache0_nextSelectCacheThreshold_1 (st : BState) :
    (buildStepCache0 st).nextSelectCacheThreshold_1 = st.nextSelectCacheThreshold_1 := by
  rw [buildStepCache0]; split <;> rfl

@[simp] theorem buildStepCount_wordIndex (vIdx w : Nat) (st : BState) :
    (buildStepCount vIdx w st).wordIndex = st.wordIndex + 1 := rfl

@[simp] theorem buildStepCount_blockIndex (vIdx w : Nat) (st : BState) :
    (buildStepCount vIdx w st).blockIndex = st.blockIndex := rfl

@[simp] theorem buildStepCount_metadata1Builder (vIdx w : Nat) (st : BState) :
    (buildStepCount vIdx w st).metadata1Builder = st.metadata1Builder := rfl

@[simp] theorem buildStepCount_metadata2Builder (vIdx w : Nat) (st : BState) :
    (buildStepCount vIdx w st).metadata2Builder = st.metadata2Builder := rfl

@[simp] theorem buildStepCount_L0BlockOneCounter (vIdx w : Nat) (st : BState) :
    (buildStepCount vIdx w st).L0BlockOneCounter = st.L0BlockOneCounter + popcount w := rfl

@[simp] theorem buildStepCount_superBlockOneCounter (vIdx w : Nat) (st : BState) :
    (buildStepCount vIdx w st).superBlockOneCounter = st.superBlockOneCounter + popcount w := rfl

@[simp] theorem buildStepCount_superblockIndex (vIdx w : Nat) (st : BState) :
    (buildStepCount vIdx w st).superblockIndex = st.superblockIndex := rfl

@[simp] theorem buildStepCount_L0SingleBlockData (vIdx w : Nat) (st : BState) :
    (buildStepCount vIdx w st).L0SingleBlockData = st.L0SingleBlockData := rfl

@[simp] theorem buildStepCount_oneCount (vIdx w : Nat) (st : BState) :
    (buildStepCount vIdx w st).oneCount = st.oneCount + popcount w := rfl

@[simp] theorem buildStepCount_zeroCount (vIdx w : Nat) (st : BState) :
    (buildStepCount vIdx w st).zeroCount = st.zeroCount + (64 - popcount w) := rfl

@[simp] theorem buildStepCount_selectCache_0 (vIdx w : Nat) (st : BState) :
    (buildStepCount vIdx w st).selectCache_0 = st.selectCache_0 := rfl

@[simp] theorem buildStepCount_selectCache_1 (vIdx w : Nat) (st : BState) :
    (buildStepCount vIdx w st).selectCache_1 = st.selectCache_1 := rfl

@[simp] theorem buildStepCount_superBlocks (vIdx w : Nat) (st : BState) :
    (buildStepCount vIdx w st).superBlocks = st.superBlocks := rfl

@[simp] theorem buildStepCount_nextSelectCacheThreshold_0 (vIdx w : Nat) (st : BState) :
    (buildStepCount vIdx w st).nextSelectCacheThreshold_0 = st.nextSelectCacheThreshold_0 := rfl

@[simp] theorem buildStepCount_nextSelectCacheThreshold_1 (vIdx w : Nat) (st : BState) :
    (buildStepCount vIdx w st).nextSelectCacheThreshold_1 = st.nextSelectCacheThreshold_1 := rfl

theorem commitSuperblock_snapshot (st : BState)
    (h : (st.superblockIndex + 2) >>> 1 = SUPERBLOCKS_PER_L0) :
    (commitSuperblock st).L0SingleBlockData = (commitSuperblock st).oneCount ∧
    (commitSuperblock st).L0BlockOneCounter = 0 ∧
    (commitSuperblock st).metadata1Builder = 0 := by
  simp only [commitSuperblock]
  rw [if_pos h]
  refine ⟨rfl, rfl, ?_⟩
  simp

/-! ### The L0 snapshot of buildHelpers -/

/-- A builder state one word away from committing the superblock that makes
the committed count reach 2 ^ 31 (the value the claim names). -/
def c6StateA : BState :=
  { wordIndex := 7, blockIndex := 7, metadata1Builder := 0, metadata2Builder := 0,
    L0BlockOneCounter := 3, superBlockOneCounter := 0, superblockIndex := 4294967294,
    nextSelectCacheThreshold_0 := 8192, nextSelectCacheThreshold_1 := 8192,
    L0SingleBlockData := 5, oneCount := 40, zeroCount := 24,
    lastOnePos := 0, lastZeroPos := 0,
    selectCache_0 := [], selectCache_1 := [], superBlocks := [] }

/-- C6 counterexample: SUPERBLOCKS_PER_L0 is 0x7FFFFFFF = 2 ^ 31 - 1, not
2 ^ 31, and when the superblock number reaches 2 ^ 31 the builder performs
no snapshot: L0SingleBlockData stays different from oneCount and
L0BlockOneCounter is not reset. -/
theorem C6_cex_threshold :
    SUPERBLOCKS_PER_L0 ≠ 2 ^ 31 ∧
      (c6StateA.superblockIndex + 2) >>> 1 = 2 ^ 31 ∧
      (buildStep 0 false 1 c6StateA).L0SingleBlockData ≠
        (buildStep 0 false 1 c6StateA).oneCount ∧
      (buildStep 0 false 1 c6StateA).L0BlockOneCounter ≠ 0 := by decide

/-- C6 amended: when the committed superblock count first reaches
SUPERBLOCKS_PER_L0 = 2 ^ 31 - 1 (0x7FFFFFFF), the builder snapshots
L0SingleBlockData = oneCount and resets the running L0 counter, so the
metadata of the next superblock starts at a zero cumulative count. -/
theorem C6_l0_snapshot (vIdx : Nat) (isLast : Bool) (w : Nat) (st : BState)
    (hw : st.wordIndex = 7 ∨ isLast = true) (hb : st.blockIndex = 7)
    (hsb : (st.superblockIndex + 2) >>> 1 = SUPERBLOCKS_PER_L0) :
    (buildStep vIdx isLast w st).L0SingleBlockData = (buildStep vIdx isLast w st).oneCount ∧
    (buildStep vIdx isLast w st).L0BlockOneCounter = 0 ∧
    (buildStep vIdx isLast w st).metadata1Builder = 0 := by
  have h8 : (buildStepCache0 (buildStepCache1 (buildStepCount vIdx w st))).wordIndex = 8 ∨
      isLast = true := by
    rcases hw with h | h
    · left; simp [h]
    · right; exact h
  have hcomm : buildStep vIdx isLast w st =
      commitSuperblock
        { buildStepCache0 (buildStepCache1 (buildStepCount vIdx w st)) with wordIndex := 0 } := by
    rw [buildStep, buildStepCommit, if_pos h8, if_pos (by simp [hb])]
  rw [hcomm]
  exact commitSuperblock_snapshot _ (by simp [hsb])

/-- A builder state whose next commit is superblock number 2 ^ 31 - 1. -/
def c6StateB : BState :=
  { c6StateA with superblockIndex := 4294967292 }

/-- Witness for C6 at a concrete state reaching SUPERBLOCKS_PER_L0. -/
theorem C6_l0_snapshot_witness :
    (c6StateB.wordIndex = 7 ∨ false = true) ∧ c6StateB.blockIndex = 7 ∧
      (c6StateB.superblockIndex + 2) >>> 1 = SUPERBLOCKS_PER_L0 ∧
      ((buildStep 0 false 1 c6StateB).L0SingleBlockData =
          (buildStep 0 false 1 c6StateB).oneCount ∧
        (buildStep 0 false 1 c6StateB).L0BlockOneCounter = 0 ∧
        (buildStep 0 false 1 c6StateB).metadata1Builder = 0) :=
  ⟨Or.inl (by decide), by decide, by decide,
    C6_l0_snapshot 0 false 1 c6StateB (Or.inl (by decide)) (by decide) (by decide)⟩

/-! ### Metadata field decoding -/

/-- The cumulative in-superblock 1-count stored for block `blockId` (1..7),
decoded from the two metadata words exactly as `rank_1` reads it. -/
def fieldRead (metadata1 metadata2 blockId : Nat) : Nat :=
  if blockId = 1 then (metadata1 >>> 8) &&& 0xFFF
  else if blockId = 2 then ((metadata1 &&& 0xFF) <<< 4) ||| (metadata2 >>> 60)
  else (metadata2 >>> ((blockId - 3) * 12)) &&& 0xFFF

theorem shiftLeft_shiftRight_of_le (x : Nat) {a b : Nat} (h : b ≤ a) :
    (x <<< a) >>> b = x <<< (a - b) := by
  rw [Nat.shiftLeft_eq, Nat.shiftLeft_eq, Nat.shiftRight_eq_div_pow]
  have h2 : (2 : Nat) ^ a = 2 ^ (a - b) * 2 ^ b := by
    rw [← pow_add]
    congr 1
    omega
  rw [h2, ← Nat.mul_assoc]
  exact Nat.mul_div_cancel _ (Nat.pos_pow_of_pos _ (by omega))

theorem shiftLeft_shiftRight_of_ge (x : Nat) {a b : Nat} (h : a ≤ b) :
    (x <<< a) >>> b = x >>> (b - a) := by
  rw [Nat.shiftLeft_eq, Nat.shiftRight_eq_div_pow, Nat.shiftRight_eq_div_pow]
  have h2 : (2 : Nat) ^ b = 2 ^ a * 2 ^ (b - a) := by
    rw [← pow_add]
    congr 1
    omega
  rw [h2, ← Nat.div_div_eq_div_mul, Nat.mul_div_cancel _ (Nat.pos_pow_of_pos _ (by omega))]

theorem shiftLeft_and_mask_zero (x : Nat) {r t : Nat} (h : r ≤ t) :
    (x <<< t) &&& (2 ^ r - 1) = 0 := by
  rw [Nat.and_pow_two_sub_one_eq_mod, Nat.shiftLeft_eq]
  rw [show t = (t - r) + r by omega, pow_add, ← Nat.mul_assoc]
  exact Nat.mul_mod_left _ _

theorem shiftRight_eq_zero_of_lt {x n : Nat} (h : x < 2 ^ n) : x >>> n = 0 :=
  shiftRight_eq_zero h

theorem and_mask_self {x r : Nat} (h : x < 2 ^ r) : x &&& (2 ^ r - 1) = x := by
  rw [Nat.and_pow_two_sub_one_eq_mod]
  exact Nat.mod_eq_of_lt h

theorem and_mask_lt (x r : Nat) : x &&& (2 ^ r - 1) < 2 ^ r := by
  rw [Nat.and_pow_two_sub_one_eq_mod]
  exact Nat.mod_lt _ (Nat.pos_pow_of_pos _ (by omega))

theorem and_mask_le_self (x r : Nat) : x &&& (2 ^ r - 1) ≤ x := by
  rw [Nat.and_pow_two_sub_one_eq_mod]
  exact Nat.mod_le _ _

theorem shiftLeft_eq_zero_iff {x a : Nat} : x <<< a = 0 ↔ x = 0 := by
  rw [Nat.shiftLeft_eq]
  constructor
  · intro h
    have := Nat.pos_pow_of_pos a (show 0 < 2 by omega)
    exact Nat.eq_zero_of_mul_eq_zero h |>.elim id (by omega)
  · intro h; rw [h, Nat.zero_mul]

theorem mod64_shiftLeft20 (x : Nat) : (x <<< 20) % 2 ^ 64 = (x % 2 ^ 44) <<< 20 := by
  rw [Nat.shiftLeft_eq, Nat.shiftLeft_eq]
  rw [show (2 : Nat) ^ 64 = 2 ^ 44 * 2 ^ 20 by norm_num]
  exact Nat.mul_mod_mul_right _ _ _

theorem seed_shiftRight20_le (x : Nat) : ((x <<< 20) % 2 ^ 64) >>> 20 ≤ x := by
  rw [mod64_shiftLeft20, Nat.shiftLeft_shiftRight]
  exact Nat.mod_le _ _

theorem nibble_merge (c : Nat) :
    (((c >>> 4) &&& 0xFF) <<< 4) ||| (c &&& 0xF) = c &&& 0xFFF := by
  apply Nat.eq_of_testBit_eq
  intro i
  simp only [Nat.testBit_lor, Nat.testBit_land, Nat.testBit_shiftLeft, Nat.testBit_shiftRight]
  have h255 : (0xFF : Nat) = 2 ^ 8 - 1 := by norm_num
  have h15 : (0xF : Nat) = 2 ^ 4 - 1 := by norm_num
  have h4095 : (0xFFF : Nat) = 2 ^ 12 - 1 := by norm_num
  rw [h255, h15, h4095]
  simp only [Nat.testBit_two_pow_sub_one]
  rcases Nat.lt_or_ge i 4 with hi | hi
  · simp [Nat.not_le.2 hi, decide_eq_true (by omega : i < 4), decide_eq_true (by omega : i < 12)]
  · rcases Nat.lt_or_ge i 12 with hi2 | hi2
    · simp [hi, decide_eq_true (by omega : i - 4 < 8), decide_eq_true (by omega : i < 12),
        decide_eq_false (by omega : ¬ i < 4), show 4 + (i - 4) = i by omega]
    · simp [hi, decide_eq_false (by omega : ¬ i - 4 < 8), decide_eq_false (by omega : ¬ i < 12),
        decide_eq_false (by omega : ¬ i < 4)]

theorem fieldRead_zero (b : Nat) : fieldRead 0 0 b = 0 := by
  rw [fieldRead]
  split
  · simp
  · split <;> simp

theorem fieldRead_seed (x b : Nat) (hb : 1 ≤ b) :
    fieldRead ((x <<< 20) % 2 ^ 64) 0 b = 0 := by
  rw [mod64_shiftLeft20, fieldRead]
  split
  · rw [shiftLeft_shiftRight_of_le _ (show 8 ≤ 20 by omega)]
    exact shiftLeft_and_mask_zero _ (show 12 ≤ 20 - 8 by omega)
  · split
    · rw [show (0xFF : Nat) = 2 ^ 8 - 1 by norm_num, shiftLeft_and_mask_zero _ (by omega)]
      simp
    · simp

theorem shiftLeft_lt {x p : Nat} (q : Nat) (h : x < 2 ^ p) : x <<< q < 2 ^ (p + q) := by
  rw [Nat.shiftLeft_eq, pow_add]
  exact Nat.mul_lt_mul_of_lt_of_le h (Nat.le_refl _) (Nat.pos_pow_of_pos _ (by omega))

theorem hFF_mask : (0xFF : Nat) = 2 ^ 8 - 1 := by norm_num

theorem hF_mask : (0xF : Nat) = 2 ^ 4 - 1 := by norm_num

theorem hFFF_mask : (0xFFF : Nat) = 2 ^ 12 - 1 := by norm_num

theorem fieldRead_w0 (m1 m2 c b : Nat) :
    fieldRead (m1 ||| ((c &&& 0xFFF) <<< 8)) m2 b =
      if b = 1 then fieldRead m1 m2 1 ||| (c &&& 0xFFF) else fieldRead m1 m2 b := by
  have hclt : c &&& 0xFFF < 2 ^ 12 := by rw [hFFF_mask]; exact and_mask_lt _ _
  rw [fieldRead]
  split
  · rw [fieldRead, if_pos rfl, or_shiftRight, Nat.shiftLeft_shiftRight, or_and]
    congr 1
    rw [hFFF_mask]
    exact and_mask_self hclt
  · next h =>
    rw [fieldRead, if_neg h]
    split
    · have hz : ((c &&& 0xFFF) <<< 8) &&& 0xFF = 0 := by
        rw [hFF_mask]
        exact shiftLeft_and_mask_zero _ (by omega)
      rw [or_and, hz, Nat.or_zero]
    · rfl

theorem fieldRead_w1 (m1 m2 c b : Nat) (hb1 : 1 ≤ b) (hb7 : b ≤ 7)
    (hz : fieldRead m1 m2 2 = 0) :
    fieldRead (m1 ||| ((c >>> 4) &&& 0xFF)) (m2 ||| ((c &&& 0xF) <<< 60)) b =
      if b = 2 then c &&& 0xFFF else fieldRead m1 m2 b := by
  have hy : (c >>> 4) &&& 0xFF < 2 ^ 8 := by rw [hFF_mask]; exact and_mask_lt _ _
  have hq : c &&& 0xF < 2 ^ 4 := by rw [hF_mask]; exact and_mask_lt _ _
  rw [fieldRead, if_neg (show ¬ (2 : Nat) = 1 by omega), if_pos rfl] at hz
  have hm1z : m1 &&& 0xFF = 0 := shiftLeft_eq_zero_iff.1 (or_eq_zero hz).1
  have hm2z : m2 >>> 60 = 0 := (or_eq_zero hz).2
  rw [fieldRead]
  split
  · next h =>
    rw [if_neg (show ¬ b = 2 by omega), fieldRead, if_pos h]
    rw [or_shiftRight_high 8 hy]
  · next h =>
    split
    · next h2 =>
      rw [or_and, hm1z, Nat.zero_or, or_shiftRight, hm2z, Nat.zero_or]
      rw [show ((c >>> 4) &&& 0xFF) &&& 0xFF = (c >>> 4) &&& 0xFF from
        by rw [hFF_mask]; exact and_mask_self hy]
      rw [Nat.shiftLeft_shiftRight]
      exact nibble_merge c
    · next h2 =>
      rw [fieldRead, if_neg h, if_neg h2]
      rw [or_shiftRight, or_and]
      have hcontrib : (((c &&& 0xF) <<< 60) >>> ((b - 3) * 12)) &&& 0xFFF = 0 := by
        rcases Nat.lt_or_ge ((b - 3) * 12) 61 with hs | hs
        · rw [shiftLeft_shiftRight_of_le _ (by omega), hFFF_mask]
          apply shiftLeft_and_mask_zero
          omega
        · rw [shiftLeft_shiftRight_of_ge _ (by omega)]
          rw [shiftRight_eq_zero
            (Nat.lt_of_lt_of_le hq (Nat.pow_le_pow_right (by omega) (by omega)))]
          simp
      rw [hcontrib, Nat.or_zero]

theorem fieldRead_wk (m1 m2 c k b : Nat) (hk2 : 2 ≤ k) (hk6 : k ≤ 6)
    (hb1 : 1 ≤ b) (hb7 : b ≤ 7) :
    fieldRead m1 (m2 ||| ((c &&& 0xFFF) <<< ((k - 2) * 12))) b =
      if b = k + 1 then fieldRead m1 m2 b ||| (c &&& 0xFFF) else fieldRead m1 m2 b := by
  have hzlt : c &&& 0xFFF < 2 ^ 12 := by rw [hFFF_mask]; exact and_mask_lt _ _
  rw [fieldRead]
  split
  · next h =>
    rw [if_neg (show ¬ b = k + 1 by omega), fieldRead, if_pos h]
  · next h =>
    split
    · next h2 =>
      rw [if_neg (show ¬ b = k + 1 by omega), fieldRead, if_neg h, if_pos h2]
      have hcontrib : ((c &&& 0xFFF) <<< ((k - 2) * 12)) >>> 60 = 0 := by
        rw [shiftLeft_shiftRight_of_ge _ (by omega)]
        exact shiftRight_eq_zero
          (Nat.lt_of_lt_of_le hzlt (Nat.pow_le_pow_right (by omega) (by omega)))
      rw [or_shiftRight, hcontrib, Nat.or_zero]
    · next h2 =>
      rw [or_shiftRight, or_and, fieldRead, if_neg h, if_neg h2]
      by_cases hb : b = k + 1
      · rw [if_pos hb]
        congr 1
        rw [show (b - 3) * 12 = (k - 2) * 12 by omega, Nat.shiftLeft_shiftRight]
        rw [hFFF_mask]
        exact and_mask_self hzlt
      · rw [if_neg hb]
        have hcontrib : (((c &&& 0xFFF) <<< ((k - 2) * 12)) >>> ((b - 3) * 12)) &&& 0xFFF = 0 := by
          rcases Nat.lt_or_ge b (k + 1) with hbk | hbk
          · rw [shiftLeft_shiftRight_of_le _ (by omega), hFFF_mask]
            apply shiftLeft_and_mask_zero
            omega
          · rw [shiftLeft_shiftRight_of_ge _ (by omega)]
            rw [shiftRight_eq_zero
              (Nat.lt_of_lt_of_le hzlt (Nat.pow_le_pow_right (by omega) (by omega)))]
            simp
        rw [hcontrib, Nat.or_zero]

/-! ### The builder loop invariant -/

/-- Loop invariant of `buildHelpers` after `v` processed words: the
committed superblock metadata and the running builders never overstate the
cumulative 1-counts of the covered positions. -/
structure BInv (W : List Nat) (v : Nat) (st : BState) : Prop where
  sbLen : st.superBlocks.length = ((W.length >>> 6) <<< 1) + 2
  sbEven : st.superblockIndex % 2 = 0
  wLt : st.wordIndex < 8
  bLt : st.blockIndex < 8
  pos : v = 32 * st.superblockIndex + 8 * st.blockIndex + st.wordIndex
  onesLe : st.oneCount ≤ 64 * v
  l0Le : st.L0SingleBlockData + st.L0BlockOneCounter ≤ st.oneCount
  l0Snap : st.L0SingleBlockData ≤ 2 ^ 43
  superLe : st.superBlockOneCounter ≤ 64 * (8 * st.blockIndex + st.wordIndex)
  m1Base : (st.metadata1Builder >>> 20) + st.L0SingleBlockData ≤ 2048 * st.superblockIndex
  curFieldLe : ∀ b, 1 ≤ b → b ≤ 7 →
    fieldRead st.metadata1Builder st.metadata2Builder b ≤ 512 * b
  curFieldZero : ∀ b, st.blockIndex < b → b ≤ 7 →
    fieldRead st.metadata1Builder st.metadata2Builder b = 0
  unwritten : ∀ j, st.superblockIndex ≤ j → st.superBlocks.getD j 0 = 0
  slotBase : ∀ s, 2 * s < st.superblockIndex →
    (st.superBlocks.getD (2 * s) 0 >>> 20) +
      (if 2 ^ 32 ≤ s then st.L0SingleBlockData else 0) ≤ 4096 * s
  slotField : ∀ s, 2 * s < st.superblockIndex → ∀ b, 1 ≤ b → b ≤ 7 →
    fieldRead (st.superBlocks.getD (2 * s) 0) (st.superBlocks.getD (2 * s + 1) 0) b ≤ 512 * b

/-- What survives of the invariant after the final (possibly partial)
iteration, enough to establish the slot bounds after the trailing commit. -/
structure BFinal (W : List Nat) (st : BState) : Prop where
  sbLen : st.superBlocks.length = ((W.length >>> 6) <<< 1) + 2
  sbEven : st.superblockIndex % 2 = 0
  l0Snap : st.L0SingleBlockData ≤ 2 ^ 43
  m1Base : (st.metadata1Builder >>> 20) + st.L0SingleBlockData ≤ 2048 * st.superblockIndex
  curFieldLe : ∀ b, 1 ≤ b → b ≤ 7 →
    fieldRead st.metadata1Builder st.metadata2Builder b ≤ 512 * b
  unwritten : ∀ j, st.superblockIndex ≤ j → st.superBlocks.getD j 0 = 0
  slotBase : ∀ s, 2 * s < st.superblockIndex →
    (st.superBlocks.getD (2 * s) 0 >>> 20) +
      (if 2 ^ 32 ≤ s then st.L0SingleBlockData else 0) ≤ 4096 * s
  slotField : ∀ s, 2 * s < st.superblockIndex → ∀ b, 1 ≤ b → b ≤ 7 →
    fieldRead (st.superBlocks.getD (2 * s) 0) (st.superBlocks.getD (2 * s + 1) 0) b ≤ 512 * b

/-- The superblock-array bounds `rank_1` relies on: no slot overstates the
cumulative 1-count reachable by its superblock number. -/
def SlotsOk (L0 : Nat) (SB : List Nat) : Prop :=
  (∀ s : Nat, (SB.getD (2 * s) 0 >>> 20) + (if 2 ^ 32 ≤ s then L0 else 0) ≤ 4096 * s) ∧
  (∀ s b : Nat, 1 ≤ b → b ≤ 7 →
    fieldRead (SB.getD (2 * s) 0) (SB.getD (2 * s + 1) 0) b ≤ 512 * b)

theorem commitSuperblock_eq (st : BState) :
    commitSuperblock st =
      { st with
        superBlocks := (st.superBlocks.set st.superblockIndex st.metadata1Builder).set
          (st.superblockIndex + 1) st.metadata2Builder,
        superblockIndex := st.superblockIndex + 2,
        L0SingleBlockData :=
          if (st.superblockIndex + 2) >>> 1 = SUPERBLOCKS_PER_L0 then st.oneCount
          else st.L0SingleBlockData,
        L0BlockOneCounter :=
          if (st.superblockIndex + 2) >>> 1 = SUPERBLOCKS_PER_L0 then 0
          else st.L0BlockOneCounter,
        metadata1Builder :=
          ((if (st.superblockIndex + 2) >>> 1 = SUPERBLOCKS_PER_L0 then 0
            else st.L0BlockOneCounter) <<< 20) % 2 ^ 64,
        metadata2Builder := 0, superBlockOneCounter := 0, blockIndex := 0 } := by
  rw [commitSuperblock]
  split <;> rfl

theorem commitBlock_eq0 (st : BState) (h : st.blockIndex = 0) :
    commitBlock st = { st with
      metadata1Builder := st.metadata1Builder ||| ((st.superBlockOneCounter &&& 0xFFF) <<< 8),
      blockIndex := st.blockIndex + 1 } := by
  rw [commitBlock, if_pos h]

theorem commitBlock_eq1 (st : BState) (h : st.blockIndex = 1) :
    commitBlock st = { st with
      metadata1Builder := st.metadata1Builder ||| ((st.superBlockOneCounter >>> 4) &&& 0xFF),
      metadata2Builder := st.metadata2Builder ||| ((st.superBlockOneCounter &&& 0xF) <<< 60),
      blockIndex := st.blockIndex + 1 } := by
  rw [commitBlock, if_neg (by omega), if_pos h]

theorem commitBlock_eqk (st : BState) (h0 : ¬ st.blockIndex = 0) (h1 : ¬ st.blockIndex = 1) :
    commitBlock st = { st with
      metadata2Builder := st.metadata2Builder |||
        ((st.superBlockOneCounter &&& 0xFFF) <<< ((st.blockIndex - 2) * 12)),
      blockIndex := st.blockIndex + 1 } := by
  rw [commitBlock, if_neg h0, if_neg h1]

theorem binv_step_mid (W : List Nat) (v vIdx w : Nat) (st : BState)
    (inv : BInv W v st) (hwi : st.wordIndex + 1 < 8) :
    BInv W (v + 1) (buildStep vIdx false w st) := by
  have hpop : popcount w ≤ 64 := popcount_le_64 w
  have hcond : ¬ ((buildStepCache0 (buildStepCache1 (buildStepCount vIdx w st))).wordIndex = 8 ∨
      false = true) := by
    simp only [buildStepCache0_wordIndex, buildStepCache1_wordIndex, buildStepCount_wordIndex]
    simp
    omega
  have hstep : buildStep vIdx false w st =
      buildStepCache0 (buildStepCache1 (buildStepCount vIdx w st)) := by
    rw [buildStep, buildStepCommit, if_neg hcond]
  rw [hstep]
  refine ⟨?_, ?_, ?_, ?_, ?_, ?_, ?_, ?_, ?_, ?_, ?_, ?_, ?_, ?_, ?_⟩ <;>
    simp only [buildStepCache0_wordIndex, buildStepCache1_wordIndex, buildStepCount_wordIndex,
      buildStepCache0_blockIndex, buildStepCache1_blockIndex, buildStepCount_blockIndex,
      buildStepCache0_metadata1Builder, buildStepCache1_metadata1Builder,
      buildStepCount_metadata1Builder,
      buildStepCache0_metadata2Builder, buildStepCache1_metadata2Builder,
      buildStepCount_metadata2Builder,
      buildStepCache0_L0BlockOneCounter, buildStepCache1_L0BlockOneCounter,
      buildStepCount_L0BlockOneCounter,
      buildStepCache0_superBlockOneCounter, buildStepCache1_superBlockOneCounter,
      buildStepCount_superBlockOneCounter,
      buildStepCache0_superblockIndex, buildStepCache1_superblockIndex,
      buildStepCount_superblockIndex,
      buildStepCache0_L0SingleBlockData, buildStepCache1_L0SingleBlockData,
      buildStepCount_L0SingleBlockData,
      buildStepCache0_oneCount, buildStepCache1_oneCount, buildStepCount_oneCount,
      buildStepCache0_superBlocks, buildStepCache1_superBlocks, buildStepCount_superBlocks]
  · exact inv.sbLen
  · exact inv.sbEven
  · omega
  · exact inv.bLt
  · have := inv.pos
    omega
  · have := inv.onesLe
    omega
  · have := inv.l0Le
    omega
  · exact inv.l0Snap
  · have := inv.superLe
    have := inv.wLt
    omega
  · exact inv.m1Base
  · exact inv.curFieldLe
  · exact inv.curFieldZero
  · exact inv.unwritten
  · exact inv.slotBase
  · exact inv.slotField

theorem binv_step_block (W : List Nat) (v vIdx w : Nat) (st : BState)
    (inv : BInv W v st) (hwi : st.wordIndex = 7) (hbi : st.blockIndex < 7) :
    BInv W (v + 1) (buildStep vIdx false w st) := by
  have hpop : popcount w ≤ 64 := popcount_le_64 w
  set st3 := buildStepCache0 (buildStepCache1 (buildStepCount vIdx w st)) with hst3
  have f_wi : st3.wordIndex = st.wordIndex + 1 := by simp [hst3]
  have f_bi : st3.blockIndex = st.blockIndex := by simp [hst3]
  have f_m1 : st3.metadata1Builder = st.metadata1Builder := by simp [hst3]
  have f_m2 : st3.metadata2Builder = st.metadata2Builder := by simp [hst3]
  have f_l0c : st3.L0BlockOneCounter = st.L0BlockOneCounter + popcount w := by simp [hst3]
  have f_sc : st3.superBlockOneCounter = st.superBlockOneCounter + popcount w := by simp [hst3]
  have f_sb : st3.superblockIndex = st.superblockIndex := by simp [hst3]
  have f_l0 : st3.L0SingleBlockData = st.L0SingleBlockData := by simp [hst3]
  have f_oc : st3.oneCount = st.oneCount + popcount w := by simp [hst3]
  have f_sbl : st3.superBlocks = st.superBlocks := by simp [hst3]
  have hcond : st3.wordIndex = 8 ∨ false = true := by
    rw [f_wi, hwi]
    left
    rfl
  have hb4 : ({ st3 with wordIndex := 0 } : BState).blockIndex = st.blockIndex := f_bi
  have hstep : buildStep vIdx false w st = commitBlock { st3 with wordIndex := 0 } := by
    rw [buildStep, buildStepCommit, ← hst3, if_pos hcond, if_neg (by rw [hb4]; omega)]
  rw [hstep]
  -- the three writer shapes of commitBlock
  by_cases hb0 : st.blockIndex = 0
  case pos =>
    rw [commitBlock_eq0 _ (by rw [hb4]; exact hb0)]
    refine ⟨?_, ?_, ?_, ?_, ?_, ?_, ?_, ?_, ?_, ?_, ?_, ?_, ?_, ?_, ?_⟩ <;>
      simp only [f_wi, f_bi, f_m1, f_m2, f_l0c, f_sc, f_sb, f_l0, f_oc, f_sbl]
    · exact inv.sbLen
    · exact inv.sbEven
    · omega
    · omega
    · have := inv.pos
      omega
    · have := inv.onesLe
      omega
    · have := inv.l0Le
      omega
    · exact inv.l0Snap
    · have := inv.superLe
      have h1 := and_mask_le_self (st.superBlockOneCounter + popcount w) 12
      rw [← hFFF_mask] at h1
      omega
    · rw [or_shiftRight_high 20
        (Nat.lt_of_lt_of_le (shiftLeft_lt 8 (by rw [hFFF_mask]; exact and_mask_lt _ _))
          (by norm_num))]
      exact inv.m1Base
    · intro b hb1 hb7
      rw [fieldRead_w0]
      by_cases hb : b = 1
      · rw [if_pos hb, inv.curFieldZero 1 (by omega) (by omega), Nat.zero_or, hb]
        have h1 := and_mask_le_self (st.superBlockOneCounter + popcount w) 12
        rw [← hFFF_mask] at h1
        have := inv.superLe
        omega
      · rw [if_neg hb]
        exact inv.curFieldLe b hb1 hb7
    · intro b hbgt hb7
      rw [fieldRead_w0, if_neg (by omega)]
      exact inv.curFieldZero b (by omega) hb7
    · exact inv.unwritten
    · exact inv.slotBase
    · exact inv.slotField
  case neg =>
    by_cases hb1c : st.blockIndex = 1
    case pos =>
      rw [commitBlock_eq1 _ (by rw [hb4]; exact hb1c)]
      refine ⟨?_, ?_, ?_, ?_, ?_, ?_, ?_, ?_, ?_, ?_, ?_, ?_, ?_, ?_, ?_⟩ <;>
        simp only [f_wi, f_bi, f_m1, f_m2, f_l0c, f_sc, f_sb, f_l0, f_oc, f_sbl]
      · exact inv.sbLen
      · exact inv.sbEven
      · omega
      · omega
      · have := inv.pos
        omega
      · have := inv.onesLe
        omega
      · have := inv.l0Le
        omega
      · exact inv.l0Snap
      · have := inv.superLe
        have h1 := and_mask_le_self (st.superBlockOneCounter + popcount w) 12
        rw [← hFFF_mask] at h1
        omega
      · rw [or_shiftRight_high 20
          (Nat.lt_of_lt_of_le (show (st.superBlockOneCounter + popcount w) >>> 4 &&& 0xFF < 2 ^ 8
            from by rw [hFF_mask]; exact and_mask_lt _ _) (by norm_num))]
        exact inv.m1Base
      · intro b hb1 hb7
        rw [fieldRead_w1 _ _ _ _ hb1 hb7 (inv.curFieldZero 2 (by omega) (by omega))]
        by_cases hb : b = 2
        · rw [if_pos hb, hb]
          have h1 := and_mask_le_self (st.superBlockOneCounter + popcount w) 12
          rw [← hFFF_mask] at h1
          have := inv.superLe
          omega
        · rw [if_neg hb]
          exact inv.curFieldLe b hb1 hb7
      · intro b hbgt hb7
        rw [fieldRead_w1 _ _ _ _ (by omega) hb7 (inv.curFieldZero 2 (by omega) (by omega)),
          if_neg (by omega)]
        exact inv.curFieldZero b (by omega) hb7
      · exact inv.unwritten
      · exact inv.slotBase
      · exact inv.slotField
    case neg =>
      rw [commitBlock_eqk _ (by rw [hb4]; exact hb0) (by rw [hb4]; exact hb1c)]
      have hk2 : 2 ≤ st.blockIndex := by omega
      have hk6 : st.blockIndex ≤ 6 := by omega
      refine ⟨?_, ?_, ?_, ?_, ?_, ?_, ?_, ?_, ?_, ?_, ?_, ?_, ?_, ?_, ?_⟩ <;>
        simp only [f_wi, f_bi, f_m1, f_m2, f_l0c, f_sc, f_sb, f_l0, f_oc, f_sbl]
      · exact inv.sbLen
      · exact inv.sbEven
      · omega
      · omega
      · have := inv.pos
        omega
      · have := inv.onesLe
        omega
      · have := inv.l0Le
        omega
      · exact inv.l0Snap
      · have := inv.superLe
        have h1 := and_mask_le_self (st.superBlockOneCounter + popcount w) 12
        rw [← hFFF_mask] at h1
        omega
      · exact inv.m1Base
      · intro b hb1 hb7
        rw [fieldRead_wk _ _ _ _ _ hk2 hk6 hb1 hb7]
        by_cases hb : b = st.blockIndex + 1
        · rw [if_pos hb, inv.curFieldZero b (by omega) hb7, Nat.zero_or, hb]
          have h1 := and_mask_le_self (st.superBlockOneCounter + popcount w) 12
          rw [← hFFF_mask] at h1
          have := inv.superLe
          omega
        · rw [if_neg hb]
          exact inv.curFieldLe b hb1 hb7
      · intro b hbgt hb7
        rw [fieldRead_wk _ _ _ _ _ hk2 hk6 (by omega) hb7, if_neg (by omega)]
        exact inv.curFieldZero b (by omega) hb7
      · exact inv.unwritten
      · exact inv.slotBase
      · exact inv.slotField

theorem double_set_getD_left {sb : List Nat} {i : Nat} (a b : Nat) (h : i < sb.length) :
    ((sb.set i a).set (i + 1) b).getD i 0 = a := by
  rw [getD_set_ne (by omega), getD_set_eq h]

theorem double_set_getD_right {sb : List Nat} {i : Nat} (a b : Nat) (h : i + 1 < sb.length) :
    ((sb.set i a).set (i + 1) b).getD (i + 1) 0 = b := by
  rw [getD_set_eq (by rw [List.length_set]; exact h)]

theorem double_set_getD_other {sb : List Nat} {i j : Nat} (a b : Nat)
    (h1 : j ≠ i) (h2 : j ≠ i + 1) :
    ((sb.set i a).set (i + 1) b).getD j 0 = sb.getD j 0 := by
  rw [getD_set_ne (by omega), getD_set_ne (by omega)]

theorem zero_seed : ((0 : Nat) <<< 20) % 2 ^ 64 = 0 := by norm_num [Nat.shiftLeft_eq]

theorem commitSuperblock_eq_snap (st : BState)
    (h : (st.superblockIndex + 2) >>> 1 = SUPERBLOCKS_PER_L0) :
    commitSuperblock st =
      { st with
        superBlocks := (st.superBlocks.set st.superblockIndex st.metadata1Builder).set
          (st.superblockIndex + 1) st.metadata2Builder,
        superblockIndex := st.superblockIndex + 2,
        L0SingleBlockData := st.oneCount, L0BlockOneCounter := 0,
        metadata1Builder := 0, metadata2Builder := 0,
        superBlockOneCounter := 0, blockIndex := 0 } := by
  rw [commitSuperblock_eq, if_pos h, if_pos h, zero_seed]

theorem commitSuperblock_eq_nosnap (st : BState)
    (h : ¬ (st.superblockIndex + 2) >>> 1 = SUPERBLOCKS_PER_L0) :
    commitSuperblock st =
      { st with
        superBlocks := (st.superBlocks.set st.superblockIndex st.metadata1Builder).set
          (st.superblockIndex + 1) st.metadata2Builder,
        superblockIndex := st.superblockIndex + 2,
        metadata1Builder := (st.L0BlockOneCounter <<< 20) % 2 ^ 64,
        metadata2Builder := 0, superBlockOneCounter := 0, blockIndex := 0 } := by
  rw [commitSuperblock_eq, if_neg h, if_neg h]

theorem binv_commitSuperblock (W : List Nat) (v : Nat) (st4 : BState)
    (hsbLen : st4.superBlocks.length = ((W.length >>> 6) <<< 1) + 2)
    (hsbEven : st4.superblockIndex % 2 = 0)
    (hwi0 : st4.wordIndex = 0)
    (hpos : v + 1 = 32 * st4.superblockIndex + 64)
    (honesLe : st4.oneCount ≤ 64 * (v + 1))
    (hl0Le : st4.L0SingleBlockData + st4.L0BlockOneCounter ≤ st4.oneCount)
    (hl0Snap : st4.L0SingleBlockData ≤ 2 ^ 43)
    (hm1Base : (st4.metadata1Builder >>> 20) + st4.L0SingleBlockData ≤
      2048 * st4.superblockIndex)
    (hcurFieldLe : ∀ b, 1 ≤ b → b ≤ 7 →
      fieldRead st4.metadata1Builder st4.metadata2Builder b ≤ 512 * b)
    (hunwritten : ∀ j, st4.superblockIndex ≤ j → st4.superBlocks.getD j 0 = 0)
    (hslotBase : ∀ s, 2 * s < st4.superblockIndex →
      (st4.superBlocks.getD (2 * s) 0 >>> 20) +
        (if 2 ^ 32 ≤ s then st4.L0SingleBlockData else 0) ≤ 4096 * s)
    (hslotField : ∀ s, 2 * s < st4.superblockIndex → ∀ b, 1 ≤ b → b ≤ 7 →
      fieldRead (st4.superBlocks.getD (2 * s) 0) (st4.superBlocks.getD (2 * s + 1) 0) b ≤
        512 * b)
    (hrange : st4.superblockIndex + 1 < st4.superBlocks.length) :
    BInv W (v + 1) (commitSuperblock st4) := by
  have hhalf : (st4.superblockIndex + 2) >>> 1 = (st4.superblockIndex + 2) / 2 := by
    rw [Nat.shiftRight_eq_div_pow]
  by_cases hs : (st4.superblockIndex + 2) >>> 1 = SUPERBLOCKS_PER_L0
  · -- the L0 snapshot fires at this commit
    rw [commitSuperblock_eq_snap _ hs]
    have hidx : st4.superblockIndex + 2 = 2 * (2 ^ 31 - 1) := by
      rw [hhalf] at hs
      rw [SUPERBLOCKS_PER_L0] at hs
      omega
    refine ⟨?_, ?_, ?_, ?_, ?_, ?_, ?_, ?_, ?_, ?_, ?_, ?_, ?_, ?_, ?_⟩ <;>
      simp only [List.length_set]
    · exact hsbLen
    · omega
    · omega
    · omega
    · omega
    · exact honesLe
    · omega
    · omega
    · omega
    · rw [shiftRight_eq_zero (show (0 : Nat) < 2 ^ 20 by norm_num)]
      omega
    · intro b hb1 hb7
      rw [fieldRead_zero]
      omega
    · intro b hbgt hb7
      exact fieldRead_zero b
    · intro j hj
      rw [double_set_getD_other _ _ (by omega) (by omega)]
      exact hunwritten j (by omega)
    · intro s hslt
      rcases Nat.lt_or_ge (2 * s) st4.superblockIndex with ho | ho
      · rw [double_set_getD_other _ _ (by omega) (by omega)]
        have hb := hslotBase s ho
        have hsmall : s < 2 ^ 32 := by omega
        rw [if_neg (by omega)] at hb ⊢
        omega
      · have hseq : 2 * s = st4.superblockIndex := by omega
        rw [hseq, double_set_getD_left _ _ (by omega)]
        rw [if_neg (show ¬ 2 ^ 32 ≤ s by omega)]
        omega
    · intro s hslt b hb1 hb7
      rcases Nat.lt_or_ge (2 * s) st4.superblockIndex with ho | ho
      · rw [double_set_getD_other _ _ (by omega) (by omega),
          double_set_getD_other _ _ (by omega) (by omega)]
        exact hslotField s ho b hb1 hb7
      · have hseq : 2 * s = st4.superblockIndex := by omega
        rw [hseq, double_set_getD_left _ _ (by omega), double_set_getD_right _ _ (by omega)]
        exact hcurFieldLe b hb1 hb7
  · -- no snapshot at this commit
    rw [commitSuperblock_eq_nosnap _ hs]
    refine ⟨?_, ?_, ?_, ?_, ?_, ?_, ?_, ?_, ?_, ?_, ?_, ?_, ?_, ?_, ?_⟩ <;>
      simp only [List.length_set]
    · exact hsbLen
    · omega
    · omega
    · omega
    · omega
    · exact honesLe
    · exact hl0Le
    · exact hl0Snap
    · omega
    · have h1 := seed_shiftRight20_le st4.L0BlockOneCounter
      omega
    · intro b hb1 hb7
      rw [fieldRead_seed _ _ hb1]
      omega
    · intro b hbgt hb7
      exact fieldRead_seed _ b (by omega)
    · intro j hj
      rw [double_set_getD_other _ _ (by omega) (by omega)]
      exact hunwritten j (by omega)
    · intro s hslt
      rcases Nat.lt_or_ge (2 * s) st4.superblockIndex with ho | ho
      · rw [double_set_getD_other _ _ (by omega) (by omega)]
        exact hslotBase s ho
      · have hseq : 2 * s = st4.superblockIndex := by omega
        rw [hseq, double_set_getD_left _ _ (by omega)]
        rcases Nat.lt_or_ge s (2 ^ 32) with hsm | hsm
        · rw [if_neg (by omega)]
          omega
        · rw [if_pos (by omega)]
          omega
    · intro s hslt b hb1 hb7
      rcases Nat.lt_or_ge (2 * s) st4.superblockIndex with ho | ho
      · rw [double_set_getD_other _ _ (by omega) (by omega),
          double_set_getD_other _ _ (by omega) (by omega)]
        exact hslotField s ho b hb1 hb7
      · have hseq : 2 * s = st4.superblockIndex := by omega
        rw [hseq, double_set_getD_left _ _ (by omega), double_set_getD_right _ _ (by omega)]
        exact hcurFieldLe b hb1 hb7

theorem binv_step_super (W : List Nat) (v vIdx w : Nat) (st : BState)
    (inv : BInv W v st) (hwi : st.wordIndex = 7) (hbi : st.blockIndex = 7)
    (hv : v < W.length) :
    BInv W (v + 1) (buildStep vIdx false w st) := by
  have hpop : popcount w ≤ 64 := popcount_le_64 w
  set st3 := buildStepCache0 (buildStepCache1 (buildStepCount vIdx w st)) with hst3
  have f_wi : st3.wordIndex = st.wordIndex + 1 := by simp [hst3]
  have f_bi : st3.blockIndex = st.blockIndex := by simp [hst3]
  have f_m1 : st3.metadata1Builder = st.metadata1Builder := by simp [hst3]
  have f_m2 : st3.metadata2Builder = st.metadata2Builder := by simp [hst3]
  have f_l0c : st3.L0BlockOneCounter = st.L0BlockOneCounter + popcount w := by simp [hst3]
  have f_sb : st3.superblockIndex = st.superblockIndex := by simp [hst3]
  have f_l0 : st3.L0SingleBlockData = st.L0SingleBlockData := by simp [hst3]
  have f_oc : st3.oneCount = st.oneCount + popcount w := by simp [hst3]
  have f_sbl : st3.superBlocks = st.superBlocks := by simp [hst3]
  have hcond : st3.wordIndex = 8 ∨ false = true := by
    rw [f_wi, hwi]
    left
    rfl
  have hstep : buildStep vIdx false w st = commitSuperblock { st3 with wordIndex := 0 } := by
    rw [buildStep, buildStepCommit, ← hst3, if_pos hcond, if_pos (show _ = 7 from f_bi ▸ hbi)]
  have hdiv : W.length >>> 6 = W.length / 64 := by
    rw [Nat.shiftRight_eq_div_pow]
  have hlen2 : ((W.length >>> 6) <<< 1) = 2 * (W.length >>> 6) := by
    rw [Nat.shiftLeft_eq]
    omega
  have hposv : v = 32 * st.superblockIndex + 63 := by
    have := inv.pos
    omega
  rw [hstep]
  apply binv_commitSuperblock
  · show st3.superBlocks.length = _
    rw [f_sbl]
    exact inv.sbLen
  · show st3.superblockIndex % 2 = 0
    rw [f_sb]
    exact inv.sbEven
  · show ({ st3 with wordIndex := 0 } : BState).wordIndex = 0
    rfl
  · show v + 1 = 32 * st3.superblockIndex + 64
    rw [f_sb]
    omega
  · show st3.oneCount ≤ 64 * (v + 1)
    rw [f_oc]
    have := inv.onesLe
    omega
  · show st3.L0SingleBlockData + st3.L0BlockOneCounter ≤ st3.oneCount
    rw [f_l0, f_l0c, f_oc]
    have := inv.l0Le
    omega
  · show st3.L0SingleBlockData ≤ 2 ^ 43
    rw [f_l0]
    exact inv.l0Snap
  · show (st3.metadata1Builder >>> 20) + st3.L0SingleBlockData ≤ 2048 * st3.superblockIndex
    rw [f_m1, f_l0, f_sb]
    exact inv.m1Base
  · show ∀ b, 1 ≤ b → b ≤ 7 → fieldRead st3.metadata1Builder st3.metadata2Builder b ≤ 512 * b
    rw [f_m1, f_m2]
    exact inv.curFieldLe
  · show ∀ j, st3.superblockIndex ≤ j → st3.superBlocks.getD j 0 = 0
    rw [f_sb, f_sbl]
    exact inv.unwritten
  · show ∀ s, 2 * s < st3.superblockIndex →
      (st3.superBlocks.getD (2 * s) 0 >>> 20) +
        (if 2 ^ 32 ≤ s then st3.L0SingleBlockData else 0) ≤ 4096 * s
    rw [f_sb, f_sbl, f_l0]
    exact inv.slotBase
  · show ∀ s, 2 * s < st3.superblockIndex → ∀ b, 1 ≤ b → b ≤ 7 →
      fieldRead (st3.superBlocks.getD (2 * s) 0) (st3.superBlocks.getD (2 * s + 1) 0) b ≤
        512 * b
    rw [f_sbl, f_sb]
    exact inv.slotField
  · show st3.superblockIndex + 1 < st3.superBlocks.length
    rw [f_sb, f_sbl, inv.sbLen, hlen2, hdiv]
    have h1 := inv.sbEven
    omega

theorem binv_step (W : List Nat) (v vIdx w : Nat) (st : BState)
    (inv : BInv W v st) (hv : v < W.length) :
    BInv W (v + 1) (buildStep vIdx false w st) := by
  rcases Nat.lt_or_ge (st.wordIndex + 1) 8 with hwi | hwi
  · exact binv_step_mid W v vIdx w st inv hwi
  · have hwi7 : st.wordIndex = 7 := by
      have := inv.wLt
      omega
    rcases Nat.lt_or_ge st.blockIndex 7 with hbi | hbi
    · exact binv_step_block W v vIdx w st inv hwi7 hbi
    · have hbi7 : st.blockIndex = 7 := by
        have := inv.bLt
        omega
      exact binv_step_super W v vIdx w st inv hwi7 hbi7 hv

theorem bfinal_commitSuperblock (W : List Nat) (st4 : BState)
    (hsbLen : st4.superBlocks.length = ((W.length >>> 6) <<< 1) + 2)
    (hsbEven : st4.superblockIndex % 2 = 0)
    (honesLe2 : st4.oneCount ≤ 2048 * st4.superblockIndex + 4096)
    (hl0sum : st4.L0SingleBlockData + st4.L0BlockOneCounter ≤
      2048 * st4.superblockIndex + 4096)
    (hl0Snap : st4.L0SingleBlockData ≤ 2 ^ 43)
    (hm1Base : (st4.metadata1Builder >>> 20) + st4.L0SingleBlockData ≤
      2048 * st4.superblockIndex)
    (hcurFieldLe : ∀ b, 1 ≤ b → b ≤ 7 →
      fieldRead st4.metadata1Builder st4.metadata2Builder b ≤ 512 * b)
    (hunwritten : ∀ j, st4.superblockIndex ≤ j → st4.superBlocks.getD j 0 = 0)
    (hslotBase : ∀ s, 2 * s < st4.superblockIndex →
      (st4.superBlocks.getD (2 * s) 0 >>> 20) +
        (if 2 ^ 32 ≤ s then st4.L0SingleBlockData else 0) ≤ 4096 * s)
    (hslotField : ∀ s, 2 * s < st4.superblockIndex → ∀ b, 1 ≤ b → b ≤ 7 →
      fieldRead (st4.superBlocks.getD (2 * s) 0) (st4.superBlocks.getD (2 * s + 1) 0) b ≤
        512 * b)
    (hrange : st4.superblockIndex + 1 < st4.superBlocks.length) :
    BFinal W (commitSuperblock st4) := by
  have hhalf : (st4.superblockIndex + 2) >>> 1 = (st4.superblockIndex + 2) / 2 := by
    rw [Nat.shiftRight_eq_div_pow]
  by_cases hs : (st4.superblockIndex + 2) >>> 1 = SUPERBLOCKS_PER_L0
  · rw [commitSuperblock_eq_snap _ hs]
    have hidx : st4.superblockIndex + 2 = 2 * (2 ^ 31 - 1) := by
      rw [hhalf] at hs
      rw [SUPERBLOCKS_PER_L0] at hs
      omega
    refine ⟨?_, ?_, ?_, ?_, ?_, ?_, ?_, ?_⟩ <;> simp only [List.length_set]
    · exact hsbLen
    · omega
    · omega
    · rw [shiftRight_eq_zero (show (0 : Nat) < 2 ^ 20 by norm_num)]
      omega
    · intro b hb1 hb7
      rw [fieldRead_zero]
      omega
    · intro j hj
      rw [double_set_getD_other _ _ (by omega) (by omega)]
      exact hunwritten j (by omega)
    · intro s hslt
      rcases Nat.lt_or_ge (2 * s) st4.superblockIndex with ho | ho
      · rw [double_set_getD_other _ _ (by omega) (by omega)]
        have hb := hslotBase s ho
        have hsmall : s < 2 ^ 32 := by omega
        rw [if_neg (by omega)] at hb ⊢
        omega
      · have hseq : 2 * s = st4.superblockIndex := by omega
        rw [hseq, double_set_getD_left _ _ (by omega)]
        rw [if_neg (show ¬ 2 ^ 32 ≤ s by omega)]
        omega
    · intro s hslt b hb1 hb7
      rcases Nat.lt_or_ge (2 * s) st4.superblockIndex with ho | ho
      · rw [double_set_getD_other _ _ (by omega) (by omega),
          double_set_getD_other _ _ (by omega) (by omega)]
        exact hslotField s ho b hb1 hb7
      · have hseq : 2 * s = st4.superblockIndex := by omega
        rw [hseq, double_set_getD_left _ _ (by omega), double_set_getD_right _ _ (by omega)]
        exact hcurFieldLe b hb1 hb7
  · rw [commitSuperblock_eq_nosnap _ hs]
    refine ⟨?_, ?_, ?_, ?_, ?_, ?_, ?_, ?_⟩ <;> simp only [List.length_set]
    · exact hsbLen
    · omega
    · exact hl0Snap
    · have h1 := seed_shiftRight20_le st4.L0BlockOneCounter
      omega
    · intro b hb1 hb7
      rw [fieldRead_seed _ _ hb1]
      omega
    · intro j hj
      rw [double_set_getD_other _ _ (by omega) (by omega)]
      exact hunwritten j (by omega)
    · intro s hslt
      rcases Nat.lt_or_ge (2 * s) st4.superblockIndex with ho | ho
      · rw [double_set_getD_other _ _ (by omega) (by omega)]
        exact hslotBase s ho
      · have hseq : 2 * s = st4.superblockIndex := by omega
        rw [hseq, double_set_getD_left _ _ (by omega)]
        rcases Nat.lt_or_ge s (2 ^ 32) with hsm | hsm
        · rw [if_neg (by omega)]
          omega
        · rw [if_pos (by omega)]
          omega
    · intro s hslt b hb1 hb7
      rcases Nat.lt_or_ge (2 * s) st4.superblockIndex with ho | ho
      · rw [double_set_getD_other _ _ (by omega) (by omega),
          double_set_getD_other _ _ (by omega) (by omega)]
        exact hslotField s ho b hb1 hb7
      · have hseq : 2 * s = st4.superblockIndex := by omega
        rw [hseq, double_set_getD_left _ _ (by omega), double_set_getD_right _ _ (by omega)]
        exact hcurFieldLe b hb1 hb7

theorem bfinal_commitBlock (W : List Nat) (st4 : BState)
    (hsbLen : st4.superBlocks.length = ((W.length >>> 6) <<< 1) + 2)
    (hsbEven : st4.superblockIndex % 2 = 0)
    (hl0Snap : st4.L0SingleBlockData ≤ 2 ^ 43)
    (hm1Base : (st4.metadata1Builder >>> 20) + st4.L0SingleBlockData ≤
      2048 * st4.superblockIndex)
    (hsuper2 : st4.superBlockOneCounter ≤ 512 * st4.blockIndex + 512)
    (hcurFieldLe : ∀ b, 1 ≤ b → b ≤ 7 →
      fieldRead st4.metadata1Builder st4.metadata2Builder b ≤ 512 * b)
    (hcurFieldZero : ∀ b, st4.blockIndex < b → b ≤ 7 →
      fieldRead st4.metadata1Builder st4.metadata2Builder b = 0)
    (hunwritten : ∀ j, st4.superblockIndex ≤ j → st4.superBlocks.getD j 0 = 0)
    (hslotBase : ∀ s, 2 * s < st4.superblockIndex →
      (st4.superBlocks.getD (2 * s) 0 >>> 20) +
        (if 2 ^ 32 ≤ s then st4.L0SingleBlockData else 0) ≤ 4096 * s)
    (hslotField : ∀ s, 2 * s < st4.superblockIndex → ∀ b, 1 ≤ b → b ≤ 7 →
      fieldRead (st4.superBlocks.getD (2 * s) 0) (st4.superBlocks.getD (2 * s + 1) 0) b ≤
        512 * b)
    (hbi7 : st4.blockIndex < 7) :
    BFinal W (commitBlock st4) := by
  by_cases hb0 : st4.blockIndex = 0
  case pos =>
    rw [commitBlock_eq0 _ hb0]
    refine ⟨?_, ?_, ?_, ?_, ?_, ?_, ?_, ?_⟩
    · exact hsbLen
    · exact hsbEven
    · exact hl0Snap
    · rw [or_shiftRight_high 20
        (Nat.lt_of_lt_of_le (shiftLeft_lt 8 (by rw [hFFF_mask]; exact and_mask_lt _ _))
          (by norm_num))]
      exact hm1Base
    · intro b hb1 hb7
      rw [fieldRead_w0]
      by_cases hb : b = 1
      · rw [if_pos hb, hcurFieldZero 1 (by omega) (by omega), Nat.zero_or, hb]
        have h1 := and_mask_le_self st4.superBlockOneCounter 12
        rw [← hFFF_mask] at h1
        omega
      · rw [if_neg hb]
        exact hcurFieldLe b hb1 hb7
    · exact hunwritten
    · exact hslotBase
    · exact hslotField
  case neg =>
    by_cases hb1c : st4.blockIndex = 1
    case pos =>
      rw [commitBlock_eq1 _ hb1c]
      refine ⟨?_, ?_, ?_, ?_, ?_, ?_, ?_, ?_⟩
      · exact hsbLen
      · exact hsbEven
      · exact hl0Snap
      · rw [or_shiftRight_high 20
          (Nat.lt_of_lt_of_le (show st4.superBlockOneCounter >>> 4 &&& 0xFF < 2 ^ 8
            from by rw [hFF_mask]; exact and_mask_lt _ _) (by norm_num))]
        exact hm1Base
      · intro b hb1 hb7
        rw [fieldRead_w1 _ _ _ _ hb1 hb7 (hcurFieldZero 2 (by omega) (by omega))]
        by_cases hb : b = 2
        · rw [if_pos hb, hb]
          have h1 := and_mask_le_self st4.superBlockOneCounter 12
          rw [← hFFF_mask] at h1
          omega
        · rw [if_neg hb]
          exact hcurFieldLe b hb1 hb7
      · exact hunwritten
      · exact hslotBase
      · exact hslotField
    case neg =>
      rw [commitBlock_eqk _ hb0 hb1c]
      have hk2 : 2 ≤ st4.blockIndex := by omega
      have hk6 : st4.blockIndex ≤ 6 := by omega
      refine ⟨?_, ?_, ?_, ?_, ?_, ?_, ?_, ?_⟩
      · exact hsbLen
      · exact hsbEven
      · exact hl0Snap
      · exact hm1Base
      · intro b hb1 hb7
        rw [fieldRead_wk _ _ _ _ _ hk2 hk6 hb1 hb7]
        by_cases hb : b = st4.blockIndex + 1
        · rw [if_pos hb, hcurFieldZero b (by omega) hb7, Nat.zero_or, hb]
          have h1 := and_mask_le_self st4.superBlockOneCounter 12
          rw [← hFFF_mask] at h1
          omega
        · rw [if_neg hb]
          exact hcurFieldLe b hb1 hb7
      · exact hunwritten
      · exact hslotBase
      · exact hslotField

theorem bfinal_last (W : List Nat) (v vIdx w : Nat) (st : BState)
    (inv : BInv W v st) (hv : v < W.length) :
    BFinal W (buildStep vIdx true w st) := by
  have hpop : popcount w ≤ 64 := popcount_le_64 w
  set st3 := buildStepCache0 (buildStepCache1 (buildStepCount vIdx w st)) with hst3
  have f_wi : st3.wordIndex = st.wordIndex + 1 := by simp [hst3]
  have f_bi : st3.blockIndex = st.blockIndex := by simp [hst3]
  have f_m1 : st3.metadata1Builder = st.metadata1Builder := by simp [hst3]
  have f_m2 : st3.metadata2Builder = st.metadata2Builder := by simp [hst3]
  have f_l0c : st3.L0BlockOneCounter = st.L0BlockOneCounter + popcount w := by simp [hst3]
  have f_sc : st3.superBlockOneCounter = st.superBlockOneCounter + popcount w := by simp [hst3]
  have f_sb : st3.superblockIndex = st.superblockIndex := by simp [hst3]
  have f_l0 : st3.L0SingleBlockData = st.L0SingleBlockData := by simp [hst3]
  have f_oc : st3.oneCount = st.oneCount + popcount w := by simp [hst3]
  have f_sbl : st3.superBlocks = st.superBlocks := by simp [hst3]
  have hcond : st3.wordIndex = 8 ∨ true = true := Or.inr rfl
  have hdiv : W.length >>> 6 = W.length / 64 := by
    rw [Nat.shiftRight_eq_div_pow]
  have hlen2 : ((W.length >>> 6) <<< 1) = 2 * (W.length >>> 6) := by
    rw [Nat.shiftLeft_eq]
    omega
  have hwLt := inv.wLt
  have hbLt := inv.bLt
  have hposv := inv.pos
  by_cases hbi : st.blockIndex = 7
  case pos =>
    have hstep : buildStep vIdx true w st = commitSuperblock { st3 with wordIndex := 0 } := by
      rw [buildStep, buildStepCommit, ← hst3, if_pos hcond,
        if_pos (show _ = 7 from f_bi ▸ hbi)]
    rw [hstep]
    apply bfinal_commitSuperblock
    · show st3.superBlocks.length = _
      rw [f_sbl]
      exact inv.sbLen
    · show st3.superblockIndex % 2 = 0
      rw [f_sb]
      exact inv.sbEven
    · show st3.oneCount ≤ 2048 * st3.superblockIndex + 4096
      rw [f_oc, f_sb]
      have := inv.onesLe
      omega
    · show st3.L0SingleBlockData + st3.L0BlockOneCounter ≤ 2048 * st3.superblockIndex + 4096
      rw [f_l0, f_l0c, f_sb]
      have h1 := inv.l0Le
      have h2 := inv.onesLe
      omega
    · show st3.L0SingleBlockData ≤ 2 ^ 43
      rw [f_l0]
      exact inv.l0Snap
    · show (st3.metadata1Builder >>> 20) + st3.L0SingleBlockData ≤ 2048 * st3.superblockIndex
      rw [f_m1, f_l0, f_sb]
      exact inv.m1Base
    · show ∀ b, 1 ≤ b → b ≤ 7 →
        fieldRead st3.metadata1Builder st3.metadata2Builder b ≤ 512 * b
      rw [f_m1, f_m2]
      exact inv.curFieldLe
    · show ∀ j, st3.superblockIndex ≤ j → st3.superBlocks.getD j 0 = 0
      rw [f_sb, f_sbl]
      exact inv.unwritten
    · show ∀ s, 2 * s < st3.superblockIndex →
        (st3.superBlocks.getD (2 * s) 0 >>> 20) +
          (if 2 ^ 32 ≤ s then st3.L0SingleBlockData else 0) ≤ 4096 * s
      rw [f_sb, f_sbl, f_l0]
      exact inv.slotBase
    · show ∀ s, 2 * s < st3.superblockIndex → ∀ b, 1 ≤ b → b ≤ 7 →
        fieldRead (st3.superBlocks.getD (2 * s) 0) (st3.superBlocks.getD (2 * s + 1) 0) b ≤
          512 * b
      rw [f_sbl, f_sb]
      exact inv.slotField
    · show st3.superblockIndex + 1 < st3.superBlocks.length
      rw [f_sb, f_sbl, inv.sbLen, hlen2, hdiv]
      have h1 := inv.sbEven
      omega
  case neg =>
    have hstep : buildStep vIdx true w st = commitBlock { st3 with wordIndex := 0 } := by
      rw [buildStep, buildStepCommit, ← hst3, if_pos hcond,
        if_neg (show ¬ _ = 7 from by rw [show ({ st3 with wordIndex := 0 } :
          BState).blockIndex = st.blockIndex from f_bi]; exact hbi)]
    rw [hstep]
    apply bfinal_commitBlock
    · show st3.superBlocks.length = _
      rw [f_sbl]
      exact inv.sbLen
    · show st3.superblockIndex % 2 = 0
      rw [f_sb]
      exact inv.sbEven
    · show st3.L0SingleBlockData ≤ 2 ^ 43
      rw [f_l0]
      exact inv.l0Snap
    · show (st3.metadata1Builder >>> 20) + st3.L0SingleBlockData ≤ 2048 * st3.superblockIndex
      rw [f_m1, f_l0, f_sb]
      exact inv.m1Base
    · show st3.superBlockOneCounter ≤ 512 * st3.blockIndex + 512
      rw [f_sc, f_bi]
      have := inv.superLe
      omega
    · show ∀ b, 1 ≤ b → b ≤ 7 →
        fieldRead st3.metadata1Builder st3.metadata2Builder b ≤ 512 * b
      rw [f_m1, f_m2]
      exact inv.curFieldLe
    · show ∀ b, st3.blockIndex < b → b ≤ 7 →
        fieldRead st3.metadata1Builder st3.metadata2Builder b = 0
      rw [f_m1, f_m2, f_bi]
      exact inv.curFieldZero
    · show ∀ j, st3.superblockIndex ≤ j → st3.superBlocks.getD j 0 = 0
      rw [f_sb, f_sbl]
      exact inv.unwritten
    · show ∀ s, 2 * s < st3.superblockIndex →
        (st3.superBlocks.getD (2 * s) 0 >>> 20) +
          (if 2 ^ 32 ≤ s then st3.L0SingleBlockData else 0) ≤ 4096 * s
      rw [f_sb, f_sbl, f_l0]
      exact inv.slotBase
    · show ∀ s, 2 * s < st3.superblockIndex → ∀ b, 1 ≤ b → b ≤ 7 →
        fieldRead (st3.superBlocks.getD (2 * s) 0) (st3.superBlocks.getD (2 * s + 1) 0) b ≤
          512 * b
      rw [f_sbl, f_sb]
      exact inv.slotField
    · show st3.blockIndex < 7
      rw [f_bi]
      omega

theorem bfinal_loop (W : List Nat) (suffix : List Nat) :
    ∀ (v vIdx : Nat) (st : BState), suffix ≠ [] → v + suffix.length = W.length →
      BInv W v st → BFinal W (buildLoop vIdx suffix st) := by
  induction suffix with
  | nil =>
    intro v vIdx st hne _ _
    exact absurd rfl hne
  | cons w ws ih =>
    intro v vIdx st _ hlen inv
    cases ws with
    | nil =>
      have hv : v < W.length := by
        simp only [List.length_cons, List.length_nil] at hlen
        omega
      show BFinal W (buildStep vIdx true w st)
      exact bfinal_last W v vIdx w st inv hv
    | cons w2 ws2 =>
      have hv : v < W.length := by
        simp only [List.length_cons] at hlen
        omega
      show BFinal W (buildLoop (vIdx + 1) (w2 :: ws2) (buildStep vIdx false w st))
      apply ih (v + 1) (vIdx + 1) _ (by simp) _ (binv_step W v vIdx w st inv hv)
      simp only [List.length_cons] at hlen ⊢
      omega

theorem binv_init (bv : bitvector) (h1 : bv.oneCount = 0) (h2 : bv.L0SingleBlockData = 0) :
    BInv bv.vector 0 (buildInit bv) := by
  rw [buildInit]
  refine ⟨?_, ?_, ?_, ?_, ?_, ?_, ?_, ?_, ?_, ?_, ?_, ?_, ?_, ?_, ?_⟩
  · exact List.length_replicate _ _
  · rfl
  · show (0 : Nat) < 8
    omega
  · show (0 : Nat) < 8
    omega
  · rfl
  · show bv.oneCount ≤ 64 * 0
    omega
  · show bv.L0SingleBlockData + 0 ≤ bv.oneCount
    omega
  · show bv.L0SingleBlockData ≤ 2 ^ 43
    rw [h2]
    norm_num
  · show (0 : Nat) ≤ 64 * (8 * 0 + 0)
    omega
  · show ((0 : Nat) >>> 20) + bv.L0SingleBlockData ≤ 2048 * 0
    rw [h2]
    omega
  · intro b hb1 hb7
    rw [fieldRead_zero]
    omega
  · intro b hbgt hb7
    exact fieldRead_zero b
  · intro j hj
    exact getD_replicate_zero
  · intro s hs
    exact absurd hs (by show ¬ 2 * s < 0; omega)
  · intro s hs
    exact absurd hs (by show ¬ 2 * s < 0; omega)

theorem slotsOk_of_bfinal (W : List Nat) (st : BState) (bf : BFinal W st) :
    SlotsOk st.L0SingleBlockData
      (if st.superblockIndex < st.superBlocks.length then
        (st.superBlocks.set st.superblockIndex st.metadata1Builder).set
          (st.superblockIndex + 1) st.metadata2Builder
       else st.superBlocks) := by
  have hsbEven := bf.sbEven
  have hl0 := bf.l0Snap
  have hsbLen := bf.sbLen
  have hlen2 : ((W.length >>> 6) <<< 1) = 2 * (W.length >>> 6) := by
    rw [Nat.shiftLeft_eq]
    omega
  by_cases hg : st.superblockIndex < st.superBlocks.length
  · rw [if_pos hg]
    constructor
    · intro s
      rcases Nat.lt_trichotomy (2 * s) st.superblockIndex with ho | ho | ho
      · rw [double_set_getD_other _ _ (by omega) (by omega)]
        exact bf.slotBase s ho
      · rw [ho, double_set_getD_left _ _ hg]
        have hb := bf.m1Base
        rcases Nat.lt_or_ge s (2 ^ 32) with hsm | hsm
        · rw [if_neg (by omega)]
          omega
        · rw [if_pos (by omega)]
          omega
      · rw [double_set_getD_other _ _ (by omega) (by omega),
          bf.unwritten (2 * s) (by omega)]
        rw [shiftRight_eq_zero (show (0 : Nat) < 2 ^ 20 by norm_num)]
        rcases Nat.lt_or_ge s (2 ^ 32) with hsm | hsm
        · rw [if_neg (by omega)]
          omega
        · rw [if_pos (by omega)]
          omega
    · intro s b hb1 hb7
      rcases Nat.lt_trichotomy (2 * s) st.superblockIndex with ho | ho | ho
      · rw [double_set_getD_other _ _ (by omega) (by omega),
          double_set_getD_other _ _ (by omega) (by omega)]
        exact bf.slotField s ho b hb1 hb7
      · rw [ho, double_set_getD_left _ _ hg, double_set_getD_right _ _ (by omega)]
        exact bf.curFieldLe b hb1 hb7
      · rw [double_set_getD_other _ _ (by omega) (by omega),
          double_set_getD_other _ _ (by omega) (by omega),
          bf.unwritten (2 * s) (by omega), bf.unwritten (2 * s + 1) (by omega)]
        rw [fieldRead_zero]
        omega
  · rw [if_neg hg]
    constructor
    · intro s
      rcases Nat.lt_or_ge (2 * s) st.superblockIndex with ho | ho
      · exact bf.slotBase s ho
      · rw [bf.unwritten (2 * s) ho,
          shiftRight_eq_zero (show (0 : Nat) < 2 ^ 20 by norm_num)]
        rcases Nat.lt_or_ge s (2 ^ 32) with hsm | hsm
        · rw [if_neg (by omega)]
          omega
        · rw [if_pos (by omega)]
          omega
    · intro s b hb1 hb7
      rcases Nat.lt_or_ge (2 * s) st.superblockIndex with ho | ho
      · exact bf.slotField s ho b hb1 hb7
      · rw [bf.unwritten (2 * s) ho, bf.unwritten (2 * s + 1) (by omega), fieldRead_zero]
        omega

theorem buildFin2_L0 (st : BState) :
    (buildFin2 st).L0SingleBlockData = st.L0SingleBlockData := by
  rw [buildFin2]
  split <;> rfl

theorem buildFin2_superBlocks (st : BState) :
    (buildFin2 st).superBlocks =
      (if st.superblockIndex < st.superBlocks.length then
        (st.superBlocks.set st.superblockIndex st.metadata1Builder).set
          (st.superblockIndex + 1) st.metadata2Builder
       else st.superBlocks) := by
  rw [buildFin2]
  split <;> rfl

theorem slotsOk_fin2 (W : List Nat) (st : BState) (bf : BFinal W st) :
    SlotsOk (buildFin2 st).L0SingleBlockData (buildFin2 st).superBlocks := by
  rw [buildFin2_L0, buildFin2_superBlocks]
  exact slotsOk_of_bfinal W st bf

theorem slotsOk_built (s : List Nat) :
    SlotsOk (buildHelpers (mkBitvector s)).L0SingleBlockData
      (buildHelpers (mkBitvector s)).superBlocks := by
  have hne : (mkBitvector s).vector ≠ [] := by
    intro hcon
    have h1 := mk_vector_length s
    rw [hcon] at h1
    simp at h1
  have hfin := bfinal_loop (mkBitvector s).vector (mkBitvector s).vector 0 0
    (buildInit (mkBitvector s)) hne (by omega) (binv_init (mkBitvector s) rfl rfl)
  exact slotsOk_fin2 (mkBitvector s).vector
    (buildLoop 0 (mkBitvector s).vector (buildInit (mkBitvector s))) hfin

theorem popcount_mask_le (w r : Nat) (hr : r ≤ 64) :
    popcount (w &&& ((1 <<< r) - 1)) ≤ r := by
  have hm : (1 <<< r) - 1 = 2 ^ r - 1 := by
    rw [Nat.shiftLeft_eq, Nat.one_mul]
  have hx : w &&& ((1 <<< r) - 1) < 2 ^ r := by
    rw [hm]
    exact and_mask_lt _ _
  calc popcount (w &&& ((1 <<< r) - 1))
      = wordOnes (w &&& ((1 <<< r) - 1)) r := wordOnes_stable hx 64 hr
    _ ≤ r := wordOnes_le _ _

theorem foldl_pop_le (f : Nat → Nat) :
    ∀ (k acc : Nat), (List.range k).foldl (fun a j => a + popcount (f j)) acc ≤ acc + 64 * k := by
  intro k
  induction k with
  | zero =>
    intro acc
    simp
  | succ m ih =>
    intro acc
    rw [List.range_succ, List.foldl_append]
    have h1 := ih acc
    have h2 : popcount (f m) ≤ 64 := popcount_le_64 _
    calc (List.foldl (fun a j => a + popcount (f j)) acc (List.range m)) + popcount (f m)
        ≤ (acc + 64 * m) + 64 := by omega
      _ = acc + 64 * (m + 1) := by ring

theorem ptr_decompose (ptr : Nat) :
    ptr = 4096 * (ptr >>> 12) + 512 * ((ptr >>> 9) &&& 7) + 64 * ((ptr >>> 6) &&& 0x7) +
      (ptr &&& 0x3F) := by
  have h12 : ptr >>> 12 = ptr / 4096 := by
    rw [Nat.shiftRight_eq_div_pow]
  have h9 : (ptr >>> 9) &&& 7 = (ptr / 512) % 8 := by
    rw [Nat.shiftRight_eq_div_pow, show (7 : Nat) = 2 ^ 3 - 1 by norm_num,
      Nat.and_pow_two_sub_one_eq_mod]
  have h6 : (ptr >>> 6) &&& 0x7 = (ptr / 64) % 8 := by
    rw [Nat.shiftRight_eq_div_pow, show (0x7 : Nat) = 2 ^ 3 - 1 by norm_num,
      Nat.and_pow_two_sub_one_eq_mod]
  have h0 : ptr &&& 0x3F = ptr % 64 := by
    rw [show (0x3F : Nat) = 2 ^ 6 - 1 by norm_num, Nat.and_pow_two_sub_one_eq_mod]
  rw [h12, h9, h6, h0]
  omega

theorem rank_1_le (bv : bitvector)
    (hS : SlotsOk bv.L0SingleBlockData bv.superBlocks) (ptr : Nat) :
    rank_1 bv ptr ≤ ptr := by
  have h2s : (ptr >>> 12) <<< 1 = 2 * (ptr >>> 12) := by
    rw [Nat.shiftLeft_eq]
    omega
  have hiff : (L0BLOCK_SIZE < ptr) ↔ (2 ^ 32 ≤ ptr >>> 12) := by
    rw [L0BLOCK_SIZE, Nat.shiftRight_eq_div_pow]
    constructor <;> intro h <;> omega
  have hdec := ptr_decompose ptr
  have hbase : (bv.superBlocks.getD (2 * (ptr >>> 12)) 0 >>> 20) +
      (if L0BLOCK_SIZE < ptr then bv.L0SingleBlockData else 0) ≤ 4096 * (ptr >>> 12) := by
    have h1 := hS.1 (ptr >>> 12)
    by_cases hc : L0BLOCK_SIZE < ptr
    · rw [if_pos hc]
      rw [if_pos (hiff.mp hc)] at h1
      exact h1
    · rw [if_neg hc]
      rw [if_neg (fun hh => hc (hiff.mpr hh))] at h1
      omega
  have hblock : (List.range ((ptr >>> 6) &&& 0x7)).foldl
      (fun acc k => acc + popcount (bv.vector.getD ((ptr >>> 9) <<< 3 + k) 0)) 0 ≤
        0 + 64 * ((ptr >>> 6) &&& 0x7) :=
    foldl_pop_le (fun k => bv.vector.getD ((ptr >>> 9) <<< 3 + k) 0) _ 0
  have h63 : ptr &&& 0x3F ≤ 64 := by
    rw [show (0x3F : Nat) = 2 ^ 6 - 1 by norm_num, Nat.and_pow_two_sub_one_eq_mod]
    omega
  have hword : popcount (bv.vector.getD ((ptr >>> 9) <<< 3 + ((ptr >>> 6) &&& 0x7)) 0 &&&
      (1 <<< (ptr &&& 0x3F) - 1)) ≤ ptr &&& 0x3F :=
    popcount_mask_le _ _ h63
  simp only [rank_1]
  rw [h2s]
  by_cases hB1 : (ptr >>> 9) &&& 7 = 1
  · rw [if_pos hB1]
    have hf := hS.2 (ptr >>> 12) 1 (by omega) (by omega)
    rw [fieldRead, if_pos rfl] at hf
    omega
  · rw [if_neg hB1]
    by_cases hB2 : (ptr >>> 9) &&& 7 = 2
    · rw [if_pos hB2]
      have hf := hS.2 (ptr >>> 12) 2 (by omega) (by omega)
      rw [fieldRead, if_neg (by omega), if_pos rfl] at hf
      omega
    · rw [if_neg hB2]
      by_cases hBk : 2 < (ptr >>> 9) &&& 7
      · rw [if_pos hBk]
        have hB8 : (ptr >>> 9) &&& 7 < 8 := by
          rw [show (7 : Nat) = 2 ^ 3 - 1 by norm_num]
          exact and_mask_lt _ _
        have hf := hS.2 (ptr >>> 12) ((ptr >>> 9) &&& 7) (by omega) (by omega)
        rw [fieldRead, if_neg hB1, if_neg hB2] at hf
        omega
      · rw [if_neg hBk]
        omega

/-- **C9.** For every bitvector built from a character string (skipping
non-0/1 characters) and every position `i` with `0 ≤ i ≤ N`,
`rank(i, 0) + rank(i, 1) = i`. -/
theorem C9_rank_sum (s : List Nat) (i : Nat) (hi : i ≤ numBits s) :
    rank (buildHelpers (mkBitvector s)) i 0 + rank (buildHelpers (mkBitvector s)) i 1 = i := by
  by_cases hi0 : i = 0
  · subst hi0
    rfl
  · have hlen : (buildHelpers (mkBitvector s)).vector.length = (s.length >>> 6) + 1 := by
      rw [buildHelpers_vector, mk_vector_length]
    have hnb := numBits_le_length s
    have hdiv : s.length >>> 6 = s.length / 64 := by
      rw [Nat.shiftRight_eq_div_pow]
    have hnc : ¬ ((buildHelpers (mkBitvector s)).vector.length <<< 6 - 1 < i) := by
      rw [hlen, Nat.shiftLeft_eq]
      omega
    have h1 : rank (buildHelpers (mkBitvector s)) i 1 = rank_1 (buildHelpers (mkBitvector s)) i := by
      simp only [rank, if_neg hi0, if_neg hnc]
      rfl
    have h2 : rank (buildHelpers (mkBitvector s)) i 0 =
        i - rank_1 (buildHelpers (mkBitvector s)) i := by
      simp only [rank, if_neg hi0, if_neg hnc]
      rfl
    have h3 : rank_1 (buildHelpers (mkBitvector s)) i ≤ i :=
      rank_1_le (buildHelpers (mkBitvector s)) (slotsOk_built s) i
    rw [h1, h2]
    omega

/-- Witness for C9 at the concrete input "101", i = 2. -/
theorem C9_rank_sum_witness :
    2 ≤ numBits [49, 48, 49] ∧
      rank (buildHelpers (mkBitvector [49, 48, 49])) 2 0 +
        rank (buildHelpers (mkBitvector [49, 48, 49])) 2 1 = 2 :=
  ⟨by decide, C9_rank_sum [49, 48, 49] 2 (by decide)⟩

theorem selectBitLoop_done (fuel w b : Nat) : selectBitLoop fuel w 0 b = b := by
  cases fuel with
  | zero => rfl
  | succ m =>
    simp only [selectBitLoop]
    rw [if_neg (by omega)]

theorem bitIndexInit_zero : bitIndexInit 0 = 0 := by decide

theorem select1Words_zero (vec : List Nat) (wi fuel : Nat) :
    select1Words vec wi 0 0 (fuel + 1) = 0 := by
  simp only [select1Words]
  rw [if_pos (by omega), if_neg (by omega), bitIndexInit_zero, selectBitLoop_done]
  decide

theorem select0Words_zero (vec : List Nat) (wi fuel : Nat) :
    select0Words vec wi 0 0 (fuel + 1) = 0 := by
  simp only [select0Words]
  rw [if_pos (by omega), if_neg (by omega), bitIndexInit_zero, selectBitLoop_done]
  decide

theorem select1Block_zero (m1 m2 : Nat) : select1Block m1 m2 0 = (0, 0) := by
  simp only [select1Block]
  rw [if_pos (Nat.zero_le _)]

theorem select0Block_zero (m1 m2 : Nat) : select0Block m1 m2 0 = (0, 0) := by
  simp only [select0Block]
  rw [if_pos (Nat.zero_le _)]

theorem select_1_zero (bv : bitvector) (h : bv.oneCount = 0 → bv.lastOnePos = 0) :
    select_1 bv 0 = 0 := by
  simp only [select_1]
  by_cases h1 : (0 : Nat) = bv.oneCount
  · rw [if_pos h1]
    exact h h1.symm
  · rw [if_neg h1, if_pos (Or.inr (Nat.zero_le _))]
    simp only [Nat.zero_sub]
    rw [if_neg (show ¬ L0BLOCK_SIZE < 0 <<< 11 from by
      rw [Nat.zero_shiftLeft]; exact Nat.not_lt_zero _), select1Block_zero]
    show 0 + select1Words bv.vector 0 0 0 8 = 0
    rw [select1Words_zero bv.vector 0 7]

theorem select_0_zero (bv : bitvector) (h : bv.zeroCount = 0 → bv.lastZeroPos = 0) :
    select_0 bv 0 = 0 := by
  simp only [select_0]
  by_cases h1 : (0 : Nat) = bv.zeroCount
  · rw [if_pos h1]
    exact h h1.symm
  · rw [if_neg h1, if_pos (Or.inr (Nat.zero_le _))]
    simp only [Nat.zero_sub]
    rw [if_neg (show ¬ L0BLOCK_SIZE < 0 <<< 11 from by
      rw [Nat.zero_shiftLeft]; exact Nat.not_lt_zero _), select0Block_zero]
    show 0 + select0Words bv.vector 0 0 0 8 = 0
    rw [select0Words_zero bv.vector 0 7]

theorem buildStepCount_lastOnePos (vIdx w : Nat) (st : BState) :
    (buildStepCount vIdx w st).lastOnePos =
      if 0 < popcount w then (vIdx <<< 6) + (63 - clz64 w) else st.lastOnePos := rfl

theorem buildStepCount_lastZeroPos (vIdx w : Nat) (st : BState) :
    (buildStepCount vIdx w st).lastZeroPos =
      if popcount w < 64 then (vIdx <<< 6) + (63 - clz64 (compl64 w)) else st.lastZeroPos := rfl

theorem commitSuperblock_oneCount (st : BState) :
    (commitSuperblock st).oneCount = st.oneCount := by
  rw [commitSuperblock_eq]

theorem commitSuperblock_lastOnePos (st : BState) :
    (commitSuperblock st).lastOnePos = st.lastOnePos := by
  rw [commitSuperblock_eq]

theorem commitSuperblock_zeroCount (st : BState) :
    (commitSuperblock st).zeroCount = st.zeroCount := by
  rw [commitSuperblock_eq]

theorem commitSuperblock_lastZeroPos (st : BState) :
    (commitSuperblock st).lastZeroPos = st.lastZeroPos := by
  rw [commitSuperblock_eq]

theorem commitBlock_oneCount (st : BState) :
    (commitBlock st).oneCount = st.oneCount := by
  simp only [commitBlock]
  split
  · rfl
  · split <;> rfl

theorem commitBlock_lastOnePos (st : BState) :
    (commitBlock st).lastOnePos = st.lastOnePos := by
  simp only [commitBlock]
  split
  · rfl
  · split <;> rfl

theorem commitBlock_zeroCount (st : BState) :
    (commitBlock st).zeroCount = st.zeroCount := by
  simp only [commitBlock]
  split
  · rfl
  · split <;> rfl

theorem commitBlock_lastZeroPos (st : BState) :
    (commitBlock st).lastZeroPos = st.lastZeroPos := by
  simp only [commitBlock]
  split
  · rfl
  · split <;> rfl

theorem buildStep_oneCount (vIdx : Nat) (isL : Bool) (w : Nat) (st : BState) :
    (buildStep vIdx isL w st).oneCount = st.oneCount + popcount w := by
  rw [buildStep]
  simp only [buildStepCommit]
  split
  · split
    · rw [commitSuperblock_oneCount]
      show (buildStepCache0 (buildStepCache1 (buildStepCount vIdx w st))).oneCount = _
      rw [buildStepCache0_oneCount, buildStepCache1_oneCount, buildStepCount_oneCount]
    · rw [commitBlock_oneCount]
      show (buildStepCache0 (buildStepCache1 (buildStepCount vIdx w st))).oneCount = _
      rw [buildStepCache0_oneCount, buildStepCache1_oneCount, buildStepCount_oneCount]
  · rw [buildStepCache0_oneCount, buildStepCache1_oneCount, buildStepCount_oneCount]

theorem buildStep_lastOnePos (vIdx : Nat) (isL : Bool) (w : Nat) (st : BState) :
    (buildStep vIdx isL w st).lastOnePos =
      if 0 < popcount w then (vIdx <<< 6) + (63 - clz64 w) else st.lastOnePos := by
  rw [buildStep]
  simp only [buildStepCommit]
  split
  · split
    · rw [commitSuperblock_lastOnePos]
      show (buildStepCache0 (buildStepCache1 (buildStepCount vIdx w st))).lastOnePos = _
      rw [buildStepCache0_lastOnePos, buildStepCache1_lastOnePos, buildStepCount_lastOnePos]
    · rw [commitBlock_lastOnePos]
      show (buildStepCache0 (buildStepCache1 (buildStepCount vIdx w st))).lastOnePos = _
      rw [buildStepCache0_lastOnePos, buildStepCache1_lastOnePos, buildStepCount_lastOnePos]
  · rw [buildStepCache0_lastOnePos, buildStepCache1_lastOnePos, buildStepCount_lastOnePos]

theorem buildStep_zeroCount (vIdx : Nat) (isL : Bool) (w : Nat) (st : BState) :
    (buildStep vIdx isL w st).zeroCount = st.zeroCount + (64 - popcount w) := by
  rw [buildStep]
  simp only [buildStepCommit]
  split
  · split
    · rw [commitSuperblock_zeroCount]
      show (buildStepCache0 (buildStepCache1 (buildStepCount vIdx w st))).zeroCount = _
      rw [buildStepCache0_zeroCount, buildStepCache1_zeroCount, buildStepCount_zeroCount]
    · rw [commitBlock_zeroCount]
      show (buildStepCache0 (buildStepCache1 (buildStepCount vIdx w st))).zeroCount = _
      rw [buildStepCache0_zeroCount, buildStepCache1_zeroCount, buildStepCount_zeroCount]
  · rw [buildStepCache0_zeroCount, buildStepCache1_zeroCount, buildStepCount_zeroCount]

theorem buildStep_lastZeroPos (vIdx : Nat) (isL : Bool) (w : Nat) (st : BState) :
    (buildStep vIdx isL w st).lastZeroPos =
      if popcount w < 64 then (vIdx <<< 6) + (63 - clz64 (compl64 w)) else st.lastZeroPos := by
  rw [buildStep]
  simp only [buildStepCommit]
  split
  · split
    · rw [commitSuperblock_lastZeroPos]
      show (buildStepCache0 (buildStepCache1 (buildStepCount vIdx w st))).lastZeroPos = _
      rw [buildStepCache0_lastZeroPos, buildStepCache1_lastZeroPos, buildStepCount_lastZeroPos]
    · rw [commitBlock_lastZeroPos]
      show (buildStepCache0 (buildStepCache1 (buildStepCount vIdx w st))).lastZeroPos = _
      rw [buildStepCache0_lastZeroPos, buildStepCache1_lastZeroPos, buildStepCount_lastZeroPos]
  · rw [buildStepCache0_lastZeroPos, buildStepCache1_lastZeroPos, buildStepCount_lastZeroPos]

theorem step_lastOne (vIdx : Nat) (isL : Bool) (w : Nat) (st : BState)
    (h : st.oneCount = 0 → st.lastOnePos = 0) :
    (buildStep vIdx isL w st).oneCount = 0 → (buildStep vIdx isL w st).lastOnePos = 0 := by
  intro hoc
  rw [buildStep_oneCount] at hoc
  rw [buildStep_lastOnePos, if_neg (by omega)]
  exact h (by omega)

theorem step_lastZero (vIdx : Nat) (isL : Bool) (w : Nat) (st : BState)
    (h : st.zeroCount = 0 → st.lastZeroPos = 0) :
    (buildStep vIdx isL w st).zeroCount = 0 → (buildStep vIdx isL w st).lastZeroPos = 0 := by
  intro hzc
  rw [buildStep_zeroCount] at hzc
  rw [buildStep_lastZeroPos, if_neg (by omega)]
  exact h (by omega)

theorem buildLoop_lastOne (ws : List Nat) : ∀ (vIdx : Nat) (st : BState),
    (st.oneCount = 0 → st.lastOnePos = 0) →
    ((buildLoop vIdx ws st).oneCount = 0 → (buildLoop vIdx ws st).lastOnePos = 0) := by
  induction ws with
  | nil =>
    intro vIdx st h
    exact h
  | cons w ws2 ih =>
    intro vIdx st h
    cases ws2 with
    | nil => exact step_lastOne vIdx true w st h
    | cons w2 ws3 =>
      show (buildLoop (vIdx + 1) (w2 :: ws3) (buildStep vIdx false w st)).oneCount = 0 → _
      exact ih (vIdx + 1) _ (step_lastOne vIdx false w st h)

theorem buildLoop_lastZero (ws : List Nat) : ∀ (vIdx : Nat) (st : BState),
    (st.zeroCount = 0 → st.lastZeroPos = 0) →
    ((buildLoop vIdx ws st).zeroCount = 0 → (buildLoop vIdx ws st).lastZeroPos = 0) := by
  induction ws with
  | nil =>
    intro vIdx st h
    exact h
  | cons w ws2 ih =>
    intro vIdx st h
    cases ws2 with
    | nil => exact step_lastZero vIdx true w st h
    | cons w2 ws3 =>
      show (buildLoop (vIdx + 1) (w2 :: ws3) (buildStep vIdx false w st)).zeroCount = 0 → _
      exact ih (vIdx + 1) _ (step_lastZero vIdx false w st h)

theorem buildFin2_oneCount (st : BState) : (buildFin2 st).oneCount = st.oneCount := by
  rw [buildFin2]
  split <;> rfl

theorem buildFin2_lastOnePos (st : BState) : (buildFin2 st).lastOnePos = st.lastOnePos := by
  rw [buildFin2]
  split <;> rfl

theorem buildFin2_zeroCount (st : BState) : (buildFin2 st).zeroCount = st.zeroCount := by
  rw [buildFin2]
  split <;> rfl

theorem buildFin2_lastZeroPos (st : BState) : (buildFin2 st).lastZeroPos = st.lastZeroPos := by
  rw [buildFin2]
  split <;> rfl

theorem built_lastOne (bv : bitvector) (h1 : bv.oneCount = 0 → bv.lastOnePos = 0) :
    (buildHelpers bv).oneCount = 0 → (buildHelpers bv).lastOnePos = 0 := by
  have e1 : (buildHelpers bv).oneCount = (buildLoop 0 bv.vector (buildInit bv)).oneCount := by
    show (buildFin2 (buildLoop 0 bv.vector (buildInit bv))).oneCount = _
    rw [buildFin2_oneCount]
  have e2 : (buildHelpers bv).lastOnePos =
      (buildLoop 0 bv.vector (buildInit bv)).lastOnePos := by
    show (buildFin2 (buildLoop 0 bv.vector (buildInit bv))).lastOnePos = _
    rw [buildFin2_lastOnePos]
  intro hoc
  rw [e2]
  exact buildLoop_lastOne bv.vector 0 (buildInit bv) h1 (by rw [← e1]; exact hoc)

theorem built_lastZero (bv : bitvector) (h1 : bv.zeroCount = 0 → bv.lastZeroPos = 0) :
    (buildHelpers bv).zeroCount = 0 → (buildHelpers bv).lastZeroPos = 0 := by
  have e1 : (buildHelpers bv).zeroCount = (buildLoop 0 bv.vector (buildInit bv)).zeroCount := by
    show (buildFin2 (buildLoop 0 bv.vector (buildInit bv))).zeroCount = _
    rw [buildFin2_zeroCount]
  have e2 : (buildHelpers bv).lastZeroPos =
      (buildLoop 0 bv.vector (buildInit bv)).lastZeroPos := by
    show (buildFin2 (buildLoop 0 bv.vector (buildInit bv))).lastZeroPos = _
    rw [buildFin2_lastZeroPos]
  intro hzc
  rw [e2]
  exact buildLoop_lastZero bv.vector 0 (buildInit bv) h1 (by rw [← e1]; exact hzc)

/-- **C7.** For every bitvector built from a character string with at least
one accepted bit and every bit-value argument `b`, `select(0, b) = 0`
(sentinel convention, not an error). -/
theorem C7_select_zero (s : List Nat) (b : Nat) (hN : 1 ≤ numBits s) :
    select (buildHelpers (mkBitvector s)) 0 b = 0 := by
  rw [select]
  by_cases hb : b = 1
  · rw [if_pos hb]
    exact select_1_zero _ (built_lastOne (mkBitvector s) (fun _ => rfl))
  · rw [if_neg hb]
    exact select_0_zero _ (built_lastZero (mkBitvector s) (fun _ => rfl))

/-- Witness for C7 at the concrete input "1" with both bit values. -/
theorem C7_select_zero_witness :
    1 ≤ numBits [49] ∧ select (buildHelpers (mkBitvector [49])) 0 0 = 0 :=
  ⟨by decide, C7_select_zero [49] 0 (by decide)⟩

theorem highestBitAux_lt (w : Nat) : ∀ n, 0 < n → highestBitAux w n < n := by
  intro n
  induction n with
  | zero => omega
  | succ k ih =>
    intro _
    show (if bitOf w k = 1 then k else highestBitAux w k) < k + 1
    split
    · omega
    · rcases Nat.eq_zero_or_pos k with hk | hk
      · rw [hk]
        show highestBitAux w 0 < 1
        rw [highestBitAux]
        omega
      · exact Nat.lt_succ_of_lt (ih hk)

theorem bitOf_highestBitAux (w : Nat) : ∀ n, (∃ k, k < n ∧ bitOf w k = 1) →
    bitOf w (highestBitAux w n) = 1 := by
  intro n
  induction n with
  | zero =>
    intro h
    rcases h with ⟨k, hk, _⟩
    omega
  | succ m ih =>
    intro h
    show bitOf w (if bitOf w m = 1 then m else highestBitAux w m) = 1
    split
    case isTrue hb => exact hb
    case isFalse hb =>
      apply ih
      rcases h with ⟨k, hk, hk1⟩
      refine ⟨k, ?_, hk1⟩
      rcases Nat.lt_or_ge k m with hkm | hkm
      · exact hkm
      · have : k = m := by omega
        rw [this] at hk1
        exact absurd hk1 hb

theorem highestBitAux_above (w : Nat) : ∀ n k, highestBitAux w n < k → k < n →
    bitOf w k = 0 := by
  intro n
  induction n with
  | zero => omega
  | succ m ih =>
    intro k hgt hlt
    rw [show highestBitAux w (m + 1) =
      if bitOf w m = 1 then m else highestBitAux w m from rfl] at hgt
    by_cases hb : bitOf w m = 1
    · rw [if_pos hb] at hgt
      omega
    · rw [if_neg hb] at hgt
      rcases Nat.lt_or_ge k m with hkm | hkm
      · exact ih k hgt hkm
      · have : k = m := by omega
        rw [this]
        have := bitOf_lt_two w m
        omega

theorem highestBit_le_63 (w : Nat) : highestBit w ≤ 63 := by
  have := highestBitAux_lt w 64 (by omega)
  rw [highestBit]
  omega

theorem clz64_val (w : Nat) : 63 - clz64 w = highestBit w := by
  have := highestBit_le_63 w
  rw [clz64]
  omega

theorem wordOnes_pos_exists (w : Nat) : ∀ n, 0 < wordOnes w n →
    ∃ k, k < n ∧ bitOf w k = 1 := by
  intro n
  induction n with
  | zero =>
    intro h
    exact absurd h (by rw [wordOnes]; omega)
  | succ m ih =>
    intro h
    rw [show wordOnes w (m + 1) = wordOnes w m + bitOf w m from rfl] at h
    by_cases hb : bitOf w m = 1
    · exact ⟨m, by omega, hb⟩
    · have hb0 : bitOf w m = 0 := by
        have := bitOf_lt_two w m
        omega
      rw [hb0] at h
      rcases ih (by omega) with ⟨k, hk, hk1⟩
      exact ⟨k, by omega, hk1⟩

theorem bitOf_highestBit_pos (w : Nat) (h0 : 0 < popcount w) :
    bitOf w (highestBit w) = 1 := by
  rw [highestBit]
  exact bitOf_highestBitAux w 64 (wordOnes_pos_exists w 64 h0)

theorem bitOf_above_highestBit (w k : Nat) (hw : w < 2 ^ 64) (h : highestBit w < k) :
    bitOf w k = 0 := by
  rcases Nat.lt_or_ge k 64 with hk | hk
  · exact highestBitAux_above w 64 k h hk
  · exact bitOf_eq_zero_of_lt (Nat.lt_of_lt_of_le hw (Nat.pow_le_pow_right (by omega) hk))

theorem wordOnes_full (w : Nat) : ∀ n, wordOnes w n = n → ∀ k, k < n → bitOf w k = 1 := by
  intro n
  induction n with
  | zero => omega
  | succ m ih =>
    intro h k hk
    rw [show wordOnes w (m + 1) = wordOnes w m + bitOf w m from rfl] at h
    have h1 := wordOnes_le w m
    have h2 := bitOf_lt_two w m
    rcases Nat.lt_or_ge k m with hkm | hkm
    · exact ih (by omega) k hkm
    · have : k = m := by omega
      rw [this]
      omega

/-- Invariant of the build loop after `v` words: `lastOnePos` is the
position of the final 1 bit of the first `64 v` positions (0 when none). -/
def LastOneInv (W : List Nat) (v : Nat) (st : BState) : Prop :=
  (st.oneCount = 0 → st.lastOnePos = 0 ∧ ∀ p, p < 64 * v → bitAt W p ≠ 1) ∧
  (0 < st.oneCount → bitAt W st.lastOnePos = 1 ∧ st.lastOnePos < 64 * v ∧
    ∀ p, st.lastOnePos < p → p < 64 * v → bitAt W p ≠ 1)

/-- Invariant of the build loop after `v` words: `lastZeroPos` is the
position of the final 0 bit of the first `64 v` positions (0 when none). -/
def LastZeroInv (W : List Nat) (v : Nat) (st : BState) : Prop :=
  (st.zeroCount = 0 → st.lastZeroPos = 0 ∧ ∀ p, p < 64 * v → bitAt W p ≠ 0) ∧
  (0 < st.zeroCount → bitAt W st.lastZeroPos = 0 ∧ st.lastZeroPos < 64 * v ∧
    ∀ p, st.lastZeroPos < p → p < 64 * v → bitAt W p ≠ 0)

theorem lastOneInv_step (W : List Nat) (v : Nat) (isL : Bool) (w : Nat) (st : BState)
    (hw : w = W.getD v 0) (hlt : w < 2 ^ 64) (inv : LastOneInv W v st) :
    LastOneInv W (v + 1) (buildStep v isL w st) := by
  constructor
  · intro hoc
    rw [buildStep_oneCount] at hoc
    have hpz : popcount w = 0 := by omega
    have hw0 : w = 0 := popcount_eq_zero hlt hpz
    rw [buildStep_lastOnePos, if_neg (by omega)]
    have h1 := inv.1 (by omega)
    refine ⟨h1.1, ?_⟩
    intro p hp
    rcases Nat.lt_or_ge p (64 * v) with hpv | hpv
    · exact h1.2 p hpv
    · have hdiv : p / 64 = v := by omega
      rw [bitAt, hdiv, ← hw, hw0, bitOf_zero_word]
      omega
  · intro hoc
    rw [buildStep_oneCount] at hoc
    rw [buildStep_lastOnePos]
    by_cases hp : 0 < popcount w
    case pos =>
      rw [if_pos hp]
      have hb63 := highestBit_le_63 w
      have hq : (v <<< 6) + (63 - clz64 w) = 64 * v + highestBit w := by
        rw [Nat.shiftLeft_eq, clz64_val]
        omega
      rw [hq]
      refine ⟨?_, by omega, ?_⟩
      · have hdiv : (64 * v + highestBit w) / 64 = v := by omega
        have hmod : (64 * v + highestBit w) % 64 = highestBit w := by omega
        rw [bitAt, hdiv, hmod, ← hw, bitOf_highestBit_pos w hp]
      · intro p hgt hlt2
        rcases Nat.lt_or_ge p (64 * v) with hpv | hpv
        · omega
        · have hdiv : p / 64 = v := by omega
          rw [bitAt, hdiv, ← hw]
          have hhi : highestBit w < p % 64 := by omega
          rw [bitOf_above_highestBit w (p % 64) hlt hhi]
          omega
    case neg =>
      rw [if_neg hp]
      have hpz : popcount w = 0 := by omega
      have hw0 : w = 0 := popcount_eq_zero hlt hpz
      have h2 := inv.2 (by omega)
      refine ⟨h2.1, by omega, ?_⟩
      intro p hgt hlt2
      rcases Nat.lt_or_ge p (64 * v) with hpv | hpv
      · exact h2.2.2 p hgt hpv
      · have hdiv : p / 64 = v := by omega
        rw [bitAt, hdiv, ← hw, hw0, bitOf_zero_word]
        omega

theorem lastZeroInv_step (W : List Nat) (v : Nat) (isL : Bool) (w : Nat) (st : BState)
    (hw : w = W.getD v 0) (hlt : w < 2 ^ 64) (inv : LastZeroInv W v st) :
    LastZeroInv W (v + 1) (buildStep v isL w st) := by
  have hple := popcount_le_64 w
  constructor
  · intro hzc
    rw [buildStep_zeroCount] at hzc
    have hpf : popcount w = 64 := by omega
    rw [buildStep_lastZeroPos, if_neg (by omega)]
    have h1 := inv.1 (by omega)
    refine ⟨h1.1, ?_⟩
    intro p hp
    rcases Nat.lt_or_ge p (64 * v) with hpv | hpv
    · exact h1.2 p hpv
    · have hdiv : p / 64 = v := by omega
      rw [bitAt, hdiv, ← hw]
      have hmod : p % 64 < 64 := by omega
      rw [wordOnes_full w 64 hpf (p % 64) hmod]
      omega
  · intro hzc
    rw [buildStep_zeroCount] at hzc
    rw [buildStep_lastZeroPos]
    by_cases hp : popcount w < 64
    case pos =>
      rw [if_pos hp]
      have hcl := compl64_lt w hlt
      have hpc : popcount (compl64 w) = 64 - popcount w := popcount_compl64 w
      have hb63 := highestBit_le_63 (compl64 w)
      have hq : (v <<< 6) + (63 - clz64 (compl64 w)) = 64 * v + highestBit (compl64 w) := by
        rw [Nat.shiftLeft_eq, clz64_val]
        omega
      rw [hq]
      refine ⟨?_, by omega, ?_⟩
      · have hdiv : (64 * v + highestBit (compl64 w)) / 64 = v := by omega
        have hmod : (64 * v + highestBit (compl64 w)) % 64 = highestBit (compl64 w) := by omega
        rw [bitAt, hdiv, hmod, ← hw]
        have hc1 : bitOf (compl64 w) (highestBit (compl64 w)) = 1 :=
          bitOf_highestBit_pos (compl64 w) (by omega)
        have hc2 := bitOf_compl64 w (highestBit (compl64 w)) (by omega)
        have hc3 := bitOf_lt_two w (highestBit (compl64 w))
        omega
      · intro p hgt hlt2
        rcases Nat.lt_or_ge p (64 * v) with hpv | hpv
        · omega
        · have hdiv : p / 64 = v := by omega
          rw [bitAt, hdiv, ← hw]
          have hhi : highestBit (compl64 w) < p % 64 := by omega
          have hc1 : bitOf (compl64 w) (p % 64) = 0 :=
            bitOf_above_highestBit (compl64 w) (p % 64) hcl hhi
          have hc2 := bitOf_compl64 w (p % 64) (by omega)
          have hc3 := bitOf_lt_two w (p % 64)
          omega
    case neg =>
      rw [if_neg hp]
      have hpf : popcount w = 64 := by omega
      have h2 := inv.2 (by omega)
      refine ⟨h2.1, by omega, ?_⟩
      intro p hgt hlt2
      rcases Nat.lt_or_ge p (64 * v) with hpv | hpv
      · exact h2.2.2 p hgt hpv
      · have hdiv : p / 64 = v := by omega
        rw [bitAt, hdiv, ← hw]
        have hmod : p % 64 < 64 := by omega
        rw [wordOnes_full w 64 hpf (p % 64) hmod]
        omega

theorem buildLoop_lastOneInv (W : List Nat) (ws : List Nat) : ∀ (v : Nat) (st : BState),
    (∀ k, k < ws.length → ws.getD k 0 = W.getD (v + k) 0) →
    (∀ j, W.getD j 0 < 2 ^ 64) →
    LastOneInv W v st → LastOneInv W (v + ws.length) (buildLoop v ws st) := by
  induction ws with
  | nil =>
    intro v st _ _ inv
    exact inv
  | cons w ws2 ih =>
    intro v st hsuf hWlt inv
    have hw : w = W.getD v 0 := by
      have := hsuf 0 (by simp)
      simpa using this
    cases ws2 with
    | nil =>
      show LastOneInv W (v + 1) (buildStep v true w st)
      exact lastOneInv_step W v true w st hw (hw ▸ hWlt v) inv
    | cons w2 ws3 =>
      show LastOneInv W (v + (w :: w2 :: ws3).length)
        (buildLoop (v + 1) (w2 :: ws3) (buildStep v false w st))
      have hlen : v + (w :: w2 :: ws3).length = (v + 1) + (w2 :: ws3).length := by
        simp only [List.length_cons]
        omega
      rw [hlen]
      apply ih (v + 1) _ _ hWlt (lastOneInv_step W v false w st hw (hw ▸ hWlt v) inv)
      intro k hk
      have := hsuf (k + 1) (by simp only [List.length_cons] at hk ⊢; omega)
      simpa [Nat.add_assoc, Nat.add_comm 1 k] using this

theorem buildLoop_lastZeroInv (W : List Nat) (ws : List Nat) : ∀ (v : Nat) (st : BState),
    (∀ k, k < ws.length → ws.getD k 0 = W.getD (v + k) 0) →
    (∀ j, W.getD j 0 < 2 ^ 64) →
    LastZeroInv W v st → LastZeroInv W (v + ws.length) (buildLoop v ws st) := by
  induction ws with
  | nil =>
    intro v st _ _ inv
    exact inv
  | cons w ws2 ih =>
    intro v st hsuf hWlt inv
    have hw : w = W.getD v 0 := by
      have := hsuf 0 (by simp)
      simpa using this
    cases ws2 with
    | nil =>
      show LastZeroInv W (v + 1) (buildStep v true w st)
      exact lastZeroInv_step W v true w st hw (hw ▸ hWlt v) inv
    | cons w2 ws3 =>
      show LastZeroInv W (v + (w :: w2 :: ws3).length)
        (buildLoop (v + 1) (w2 :: ws3) (buildStep v false w st))
      have hlen : v + (w :: w2 :: ws3).length = (v + 1) + (w2 :: ws3).length := by
        simp only [List.length_cons]
        omega
      rw [hlen]
      apply ih (v + 1) _ _ hWlt (lastZeroInv_step W v false w st hw (hw ▸ hWlt v) inv)
      intro k hk
      have := hsuf (k + 1) (by simp only [List.length_cons] at hk ⊢; omega)
      simpa [Nat.add_assoc, Nat.add_comm 1 k] using this

theorem built_lastOneInv (s : List Nat) :
    LastOneInv (mkBitvector s).vector (mkBitvector s).vector.length
      (buildLoop 0 (mkBitvector s).vector (buildInit (mkBitvector s))) := by
  have hinit : LastOneInv (mkBitvector s).vector 0 (buildInit (mkBitvector s)) := by
    constructor
    · intro _
      exact ⟨rfl, fun p hp => absurd hp (by omega)⟩
    · intro h
      exact absurd h (by show ¬ (0 : Nat) < 0; omega)
  have h := buildLoop_lastOneInv (mkBitvector s).vector (mkBitvector s).vector 0
    (buildInit (mkBitvector s)) (fun k hk => by rw [Nat.zero_add]) (mk_word_lt s) hinit
  simpa using h

theorem built_lastZeroInv (s : List Nat) :
    LastZeroInv (mkBitvector s).vector (mkBitvector s).vector.length
      (buildLoop 0 (mkBitvector s).vector (buildInit (mkBitvector s))) := by
  have hinit : LastZeroInv (mkBitvector s).vector 0 (buildInit (mkBitvector s)) := by
    constructor
    · intro _
      exact ⟨rfl, fun p hp => absurd hp (by omega)⟩
    · intro h
      exact absurd h (by show ¬ (0 : Nat) < 0; omega)
  have h := buildLoop_lastZeroInv (mkBitvector s).vector (mkBitvector s).vector 0
    (buildInit (mkBitvector s)) (fun k hk => by rw [Nat.zero_add]) (mk_word_lt s) hinit
  simpa using h

theorem bitAt_beyond (W : List Nat) (p : Nat) (h : 64 * W.length ≤ p) : bitAt W p = 0 := by
  rw [bitAt, List.getD_eq_default _ _ (by omega), bitOf_zero_word]

theorem select_1_total (bv : bitvector) : select_1 bv bv.oneCount = bv.lastOnePos := by
  simp only [select_1]
  rw [if_true]

theorem select_0_total (bv : bitvector) : select_0 bv bv.zeroCount = bv.lastZeroPos := by
  simp only [select_0]
  rw [if_true]

/-- **C8 (counterexample).** For the input "10" (N = 2), the 0-side total
count is 63 and `select(63, 0)` returns the cached `lastZeroPos = 63`, which
is not a position of `B[0..N)` at all: the cache points at the final zero of
the zero padding of the word array, not at the final 0-bit of the sequence. -/
theorem C8_cex_lastZeroPos :
    numBits [49, 48] = 2 ∧
    select (buildHelpers (mkBitvector [49, 48]))
      ((buildHelpers (mkBitvector [49, 48])).zeroCount) 0 = 63 ∧
    ¬ (63 < numBits [49, 48]) := by decide

/-- **C8 (amended).** For every bitvector built from a character string,
`select(total_count(b), b)` returns the cached `lastOnePos` / `lastZeroPos`
through the fast path; `lastOnePos` is the position of the final 1-bit of
`B[0..N)` (when a 1 exists), but `lastZeroPos` is the position of the final
0-bit of the zero-padded word array `B[0..64|W|)`, which lies beyond `N - 1`
whenever the trailing padding is nonempty. -/
theorem C8_select_total (s : List Nat) :
    (select (buildHelpers (mkBitvector s)) (buildHelpers (mkBitvector s)).oneCount 1 =
      (buildHelpers (mkBitvector s)).lastOnePos) ∧
    (select (buildHelpers (mkBitvector s)) (buildHelpers (mkBitvector s)).zeroCount 0 =
      (buildHelpers (mkBitvector s)).lastZeroPos) ∧
    (0 < (buildHelpers (mkBitvector s)).oneCount →
      (buildHelpers (mkBitvector s)).lastOnePos < numBits s ∧
      access (buildHelpers (mkBitvector s)) (buildHelpers (mkBitvector s)).lastOnePos = 1 ∧
      ∀ p, (buildHelpers (mkBitvector s)).lastOnePos < p →
        access (buildHelpers (mkBitvector s)) p ≠ 1) ∧
    (access (buildHelpers (mkBitvector s)) (buildHelpers (mkBitvector s)).lastZeroPos = 0 ∧
      ∀ p, (buildHelpers (mkBitvector s)).lastZeroPos < p →
        p < 64 * (mkBitvector s).vector.length →
        access (buildHelpers (mkBitvector s)) p ≠ 0) := by
  have hone : (buildHelpers (mkBitvector s)).oneCount =
      (buildLoop 0 (mkBitvector s).vector (buildInit (mkBitvector s))).oneCount := by
    show (buildFin2 (buildLoop 0 (mkBitvector s).vector (buildInit (mkBitvector s)))).oneCount = _
    rw [buildFin2_oneCount]
  have hlop : (buildHelpers (mkBitvector s)).lastOnePos =
      (buildLoop 0 (mkBitvector s).vector (buildInit (mkBitvector s))).lastOnePos := by
    show (buildFin2 (buildLoop 0 (mkBitvector s).vector
      (buildInit (mkBitvector s)))).lastOnePos = _
    rw [buildFin2_lastOnePos]
  have hzc : (buildHelpers (mkBitvector s)).zeroCount =
      (buildLoop 0 (mkBitvector s).vector (buildInit (mkBitvector s))).zeroCount := by
    show (buildFin2 (buildLoop 0 (mkBitvector s).vector (buildInit (mkBitvector s)))).zeroCount = _
    rw [buildFin2_zeroCount]
  have hlzp : (buildHelpers (mkBitvector s)).lastZeroPos =
      (buildLoop 0 (mkBitvector s).vector (buildInit (mkBitvector s))).lastZeroPos := by
    show (buildFin2 (buildLoop 0 (mkBitvector s).vector
      (buildInit (mkBitvector s)))).lastZeroPos = _
    rw [buildFin2_lastZeroPos]
  have hinv1 := built_lastOneInv s
  have hinv0 := built_lastZeroInv s
  have hNlt : numBits s < 64 * (mkBitvector s).vector.length := by
    rw [mk_vector_length]
    have h1 := numBits_le_length s
    have h2 := length_lt_wordBits s
    omega
  refine ⟨?_, ?_, ?_, ?_⟩
  · rw [select, if_pos rfl]
    exact select_1_total (buildHelpers (mkBitvector s))
  · rw [select, if_neg (show ¬ (0 : Nat) = 1 by omega)]
    exact select_0_total (buildHelpers (mkBitvector s))
  · intro hoc
    rw [hone] at hoc
    have h2 := hinv1.2 hoc
    have hlt : (buildHelpers (mkBitvector s)).lastOnePos < numBits s := by
      by_contra hge
      have h0 : bitAt (mkBitvector s).vector (buildHelpers (mkBitvector s)).lastOnePos = 0 :=
        mk_bitAt_high s _ (by omega)
      rw [hlop] at h0
      rw [h2.1] at h0
      omega
    refine ⟨hlt, ?_, ?_⟩
    · rw [access_eq_bitAt, buildHelpers_vector, hlop]
      exact h2.1
    · intro p hp
      rw [access_eq_bitAt, buildHelpers_vector]
      rw [hlop] at hp
      rcases Nat.lt_or_ge p (64 * (mkBitvector s).vector.length) with hp2 | hp2
      · exact h2.2.2 p hp hp2
      · rw [bitAt_beyond _ _ hp2]
        omega
  · have hzpos : 0 <
        (buildLoop 0 (mkBitvector s).vector (buildInit (mkBitvector s))).zeroCount := by
      by_contra hz
      have h1 := hinv0.1 (by omega)
      have hbit : bitAt (mkBitvector s).vector (numBits s) = 0 :=
        mk_bitAt_high s (numBits s) (Nat.le_refl _)
      exact h1.2 (numBits s) hNlt hbit
    have h2 := hinv0.2 hzpos
    constructor
    · rw [access_eq_bitAt, buildHelpers_vector, hlzp]
      exact h2.1
    · intro p hp hp2
      rw [access_eq_bitAt, buildHelpers_vector]
      rw [hlzp] at hp
      exact h2.2.2 p hp hp2

/-- Witness for C8 at the concrete input "10". -/
theorem C8_select_total_witness :
    select (buildHelpers (mkBitvector [49, 48]))
        (buildHelpers (mkBitvector [49, 48])).oneCount 1 =
      (buildHelpers (mkBitvector [49, 48])).lastOnePos :=
  (C8_select_total [49, 48]).1
